import Mathlib

/-!
Verification of the DFA visualization tool's automaton engine
(specification parser, graph model with mutation operations, graph
projection with merged edge labels, and the batch/animated acceptance
checkers), shallowly embedded from `src/pages/index.js`.

Modelling conventions:
* A vis.js node is modelled by its semantic fields `id`, `label`, `title`
  (`title` is `some "accepting"` on accepting states and `none` otherwise).
  Rendering-only fields (`borderWidth`, `color`, `smooth`, the synthetic
  uuid edge ids) never influence the engine's observable behaviour and are
  omitted.
* JavaScript `undefined` flowing through `stateIdMap[name]` lookups and
  `edge.to` is modelled with `Option Nat`; the JS `===` comparisons on
  possibly-`undefined` numbers become `Option` equality.
* JavaScript runtime crashes (property access on `undefined`) inside the
  checkers are modelled by an `Option` result, `none` meaning the run
  threw instead of producing a verdict.
* JS `String.prototype.includes` is substring containment, modelled
  character-exactly by `containsChars`.
-/

namespace DfaVis

/-- A graph node: `{ id, label, title }` from the vis.js node objects built
by `parseDfaSpecification` and `addNewState`. -/
structure Node where
  id : Nat
  label : String
  title : Option String
deriving DecidableEq

/-- A graph edge: `{ from, to, label }` (fields renamed `efrom`/`eto`
because `from` is a Lean keyword).  `from`/`to` are `Option Nat` because
`stateIdMap[...]` lookups can produce `undefined` in the source. -/
structure Edge where
  efrom : Option Nat
  eto : Option Nat
  label : String
deriving DecidableEq

/-- The graph data held in the `graphData` React state. -/
structure Graph where
  nodes : List Node
  edges : List Edge
deriving DecidableEq

/-- `defaultGraph` from the source: one non-accepting node `Start` with
id 1 and no edges. -/
def defaultGraph : Graph :=
  { nodes := [{ id := 1, label := "Start", title := none }], edges := [] }

/-! ### Character-list string primitives (JS string operations) -/

/-- Does `hay` start with `pat`?  (JS `String.prototype.startsWith`.) -/
def startsWithChars : List Char → List Char → Bool
  | _, [] => true
  | [], _ :: _ => false
  | c :: cs, p :: ps => c == p && startsWithChars cs ps

/-- Does `hay` contain `pat` as a contiguous substring?
(JS `String.prototype.includes`.) -/
def containsChars : List Char → List Char → Bool
  | [], pat => startsWithChars [] pat
  | c :: t, pat => startsWithChars (c :: t) pat || containsChars t pat

/-- `s.includes(pat)` on Lean strings. -/
def jsIncludes (s pat : String) : Bool :=
  containsChars s.data pat.data

/-! ### Mutation operations on the graph -/

/-- Replace the first edge satisfying `p` by its image under `f`
(the JS code mutates the object returned by `edges.find`). -/
def updateFirstEdge (p : Edge → Bool) (f : Edge → Edge) : List Edge → List Edge
  | [] => []
  | e :: es => if p e then f e :: es else e :: updateFirstEdge p f es

/-- Replace the first node satisfying `p` by its image under `f`. -/
def updateFirstNode (p : Node → Bool) (f : Node → Node) : List Node → List Node
  | [] => []
  | n :: ns => if p n then f n :: ns else n :: updateFirstNode p f ns

/-- Result of `addEdge`: the new graph plus whether the conflict `alert`
branch fired (the operation's failure mode). -/
structure AddEdgeResult where
  graph : Graph
  conflict : Bool
deriving DecidableEq

/-- `addEdge(nodeId1, nodeId2, label)` from the source: if an edge between
the two nodes already exists, append the label to it unless already
included; otherwise, if some edge out of `nodeId1` already carries `label`,
alert a conflict and change nothing; otherwise push a new edge. -/
def addEdge (g : Graph) (nodeId1 nodeId2 : Nat) (label : String) : AddEdgeResult :=
  match g.edges.find? (fun x => x.efrom == some nodeId1 && x.eto == some nodeId2) with
  | some existingEdge =>
    if jsIncludes existingEdge.label label then { graph := g, conflict := false }
    else
      { graph := { g with
          edges := updateFirstEdge (fun x => x.efrom == some nodeId1 && x.eto == some nodeId2)
            (fun x => { x with label := x.label ++ ", " ++ label }) g.edges },
        conflict := false }
  | none =>
    match g.edges.find? (fun x => x.efrom == some nodeId1 && jsIncludes x.label label) with
    | some _ => { graph := g, conflict := true }
    | none =>
      { graph := { g with
          edges := g.edges ++ [{ efrom := some nodeId1, eto := some nodeId2, label := label }] },
        conflict := false }

/-- `Math.max(...ids)` over the node ids (node lists reachable from
`defaultGraph` are never empty, where this agrees with the fold from 0). -/
def maxNodeId (g : Graph) : Nat :=
  g.nodes.foldl (fun m n => max m n.id) 0

/-- `addNewState(accptingState)` from the source: appends a node with id
`max id + 1`, label `Q<id>`, accepting iff the flag is set. -/
def addNewState (g : Graph) (accepting : Bool) : Graph :=
  let newId := maxNodeId g + 1
  { g with nodes := g.nodes ++
      [{ id := newId, label := "Q" ++ Nat.repr newId,
         title := if accepting then some "accepting" else none }] }

/-- `makeStartStateAccepting` from the source: sets `title` of node 1 to
`accepting` (JS mutates the object returned by `nodes.find`). -/
def makeStartStateAccepting (g : Graph) : Graph :=
  { g with nodes := updateFirstNode (fun n => n.id == 1)
              (fun n => { n with title := some "accepting" }) g.nodes }

/-- `resetGraph` from the source. -/
def resetGraph : Graph := defaultGraph

/-- The node ids of a graph. -/
def nodeIds (g : Graph) : List Nat := g.nodes.map Node.id

/-- Models reachable from the initial model via the interactive mutation
operations.  The side conditions on `addTransition` record what the UI
guarantees: the two endpoint dropdowns only offer existing node ids and
the three buttons only pass labels `0`, `A`, `C`. -/
inductive Reachable : Graph → Prop
  | init : Reachable defaultGraph
  | addState (g : Graph) (accepting : Bool) :
      Reachable g → Reachable (addNewState g accepting)
  | addTransition (g : Graph) (n1 n2 : Nat) (label : String) :
      Reachable g → n1 ∈ nodeIds g → n2 ∈ nodeIds g →
      label ∈ (["0", "A", "C"] : List String) →
      Reachable (addEdge g n1 n2 label).graph
  | toggleAccepting (g : Graph) :
      Reachable g → Reachable (makeStartStateAccepting g)
  | reset (g : Graph) : Reachable g → Reachable resetGraph

/-! ### The acceptance checkers -/

/-- `graphData.edges.find(x => x.from === currNodeId && x.label.includes(value))`. -/
def findNextEdge (g : Graph) (curr : Option Nat) (value : Char) : Option Edge :=
  g.edges.find? (fun x => x.efrom == curr && containsChars x.label.data [value])

/-- `graphData.nodes.find(x => x.id === i)`. -/
def findNode (g : Graph) (i : Option Nat) : Option Node :=
  g.nodes.find? (fun n => some n.id == i)

/-- The batch checker's final test
`!!currNodeObj.title && currNodeObj.title === "accepting"`
(JS string truthiness: the empty string is falsy). -/
def titleAccepting : Option String → Bool
  | none => false
  | some s => (s != "") && s == "accepting"

/-- The loop of the batch `checkInputString`: walk the input; a missing
transition rejects immediately; after the last symbol the verdict is the
final node's accepting flag (a `none` result models the JS crash when that
final node lookup yields `undefined`). -/
def checkFrom (g : Graph) : Option Nat → Bool → List Char → Option Bool
  | _, accepted, [] => some accepted
  | curr, accepted, value :: rest =>
    match findNextEdge g curr value with
    | none => some false
    | some nextEdge =>
      match rest with
      | [] =>
        match findNode g nextEdge.eto with
        | none => none
        | some currNodeObj => some (titleAccepting currNodeObj.title)
      | _ :: _ => checkFrom g nextEdge.eto accepted rest

/-- Batch `checkInputString` (animation disabled): starts at node 1 with
`accepted = inputString.length > 0`. -/
def checkInputString (g : Graph) (input : List Char) : Option Bool :=
  checkFrom g (some 1) (decide (0 < input.length)) input

/-- The animated checker's final test `currNode.title === 'accepting'`. -/
def animTitleAccepting (t : Option String) : Bool :=
  t == some "accepting"

/-- The loop of `animateCheckInputString`: same traversal as the batch
checker, but the current node is looked up (and recoloured) after every
step, so a dangling target crashes the run (`none`) even mid-input. -/
def animateFrom (g : Graph) : Option Nat → Bool → List Char → Option Bool
  | _, accepted, [] => some accepted
  | curr, accepted, value :: rest =>
    match findNextEdge g curr value with
    | none => some false
    | some nextEdge =>
      match findNode g nextEdge.eto with
      | none => none
      | some currNode =>
        match rest with
        | [] => some (animTitleAccepting currNode.title)
        | _ :: _ => animateFrom g nextEdge.eto accepted rest

/-- `resetAnimationColors` rebuilds every node and edge with colours
cleared; on the semantic fields it is the identity. -/
def resetAnimationColors (g : Graph) : Graph :=
  { nodes := g.nodes.map (fun n => { id := n.id, label := n.label, title := n.title }),
    edges := g.edges.map (fun e => { efrom := e.efrom, eto := e.eto, label := e.label }) }

/-- `animateCheckInputString`: the terminal verdict of the animated run
(the frame/pacing side effects carry no extra information). -/
def animateCheckInputString (g : Graph) (input : List Char) : Option Bool :=
  animateFrom (resetAnimationColors g) (some 1) (decide (0 < input.length)) input

/-! ### Properties and concrete scenarios used by the claims -/

/-- Determinism at one `(state, symbol)` pair: at most one outgoing edge of
`s` has a merged label containing `sym`. -/
def deterministicFor (g : Graph) (s : Nat) (sym : String) : Prop :=
  (g.edges.filter (fun e => e.efrom == some s && jsIncludes e.label sym)).length ≤ 1

instance (g : Graph) (s : Nat) (sym : String) : Decidable (deterministicFor g s sym) := by
  unfold deterministicFor
  infer_instance

/-- Every edge's target id refers to an existing node (true of well-formed
models; a dangling target makes the JS checkers crash). -/
def edgeTargetsValid (g : Graph) : Prop :=
  ∀ e ∈ g.edges, ∃ nd ∈ g.nodes, some nd.id = e.eto

instance (g : Graph) : Decidable (edgeTargetsValid g) := by
  unfold edgeTargetsValid
  infer_instance

/-- Mutation sequence exercising the determinism gap: add states 2 and 3,
add `1 --A--> 2`, `1 --0--> 3`, then `1 --0--> 2`; the last call merges
`0` onto the existing `1 --> 2` edge without the conflict check. -/
def g2bug : Graph :=
  (addEdge (addEdge (addEdge (addNewState (addNewState defaultGraph false) false)
      1 2 "A").graph 1 3 "0").graph 1 2 "0").graph

/-- Base model for the conflict-rejection scenario: states 1, 2, 3 and a
pre-existing edge `1 --C--> 3`. -/
def g3base : Graph :=
  (addEdge (addNewState (addNewState defaultGraph false) false) 1 3 "C").graph

/-! ### Specification parser: string-level extraction

`parseDfaSpecification` locates its five sections with anchored regex
searches.  Each regex used by the source is modelled character-exactly by
a matcher tried at every position left to right (`scanFirst`), which is
the JS first-match semantics.  JS `\s*` is modelled by `Char.isWhitespace`
(space, tab, CR, LF), which agrees with JS on the texts in scope. -/

def quoteChar : Char := Char.ofNat 39

def commaChar : Char := Char.ofNat 44

def lparenChar : Char := Char.ofNat 40

def rparenChar : Char := Char.ofNat 41

def colonChar : Char := Char.ofNat 58

def eqChar : Char := Char.ofNat 61

def lbraceChar : Char := Char.ofNat 123

def rbraceChar : Char := Char.ofNat 125

/-- Drop leading whitespace (the `\s*` parts of the regexes). -/
def skipWs : List Char → List Char
  | [] => []
  | c :: t => if c.isWhitespace then skipWs t else c :: t

/-- Match a literal at the head of the input; return the rest on success. -/
def dropLit : List Char → List Char → Option (List Char)
  | s, [] => some s
  | [], _ :: _ => none
  | c :: cs, p :: ps => if c == p then dropLit cs ps else none

/-- Capture characters up to (not including) the first `stop`; also return
what follows it.  Fails when `stop` never occurs (`([^x]*)x` in a regex). -/
def captureUntil (stop : Char) : List Char → Option (List Char × List Char)
  | [] => none
  | c :: t =>
    if c == stop then some ([], t)
    else
      match captureUntil stop t with
      | some (cap, rest) => some (c :: cap, rest)
      | none => none

/-- Try a matcher at every suffix, leftmost first (JS `String.match`). -/
def scanFirst {α : Type} (m : List Char → Option α) : List Char → Option α
  | [] => m []
  | c :: t =>
    match m (c :: t) with
    | some a => some a
    | none => scanFirst m t

/-- The characters of `'name':` (a section key). -/
def keyChars (name : String) : List Char :=
  quoteChar :: name.data ++ [quoteChar, colonChar]

def alphabetKey : List Char := keyChars "alphabet"

def statesKey : List Char := keyChars "states"

def initialStateKey : List Char := keyChars "initial_state"

def acceptingStatesKey : List Char := keyChars "accepting_states"

/-- The characters of `'transitions'` (used with `indexOf`, no colon in the
source's search string... the source searches for `'transitions'`). -/
def transitionsLit : List Char := quoteChar :: "transitions".data ++ [quoteChar]

/-- One-position matcher for `/'key':\s*\{([^}]*)\}/`. -/
def sectionAt (key : List Char) (s : List Char) : Option (List Char) := do
  let r1 ← dropLit s key
  let r2 ← dropLit (skipWs r1) [lbraceChar]
  let (cap, _) ← captureUntil rbraceChar r2
  pure cap

/-- First match of `/'key':\s*\{([^}]*)\}/` anywhere in `s`. -/
def sectionCapture (key : List Char) (s : List Char) : Option (List Char) :=
  scanFirst (sectionAt key) s

/-- One-position matcher for `/'initial_state':\s*'([^']*)'/`. -/
def initialStateAt (s : List Char) : Option (List Char) := do
  let r1 ← dropLit s initialStateKey
  let r2 ← dropLit (skipWs r1) [quoteChar]
  let (cap, _) ← captureUntil quoteChar r2
  pure cap

def initialStateCapture (s : List Char) : Option (List Char) :=
  scanFirst initialStateAt s

def specDfaLit : List Char := "SPEC_DFA".data

/-- Split off everything after the last occurrence of `stop`
(the greedy `([\s\S]*)\}` tail of the wrapper regex). -/
def splitAtLast (stop : Char) : List Char → Option (List Char × List Char)
  | [] => none
  | c :: t =>
    match splitAtLast stop t with
    | some (a, b) => some (c :: a, b)
    | none => if c == stop then some ([], t) else none

/-- One-position matcher for `/SPEC_DFA\s*=\s*\{([\s\S]*)\}/`, returning
the whole matched text (`specMatch[0]` in the source). -/
def wrapperAt (s : List Char) : Option (List Char) := do
  let r1 ← dropLit s specDfaLit
  let r2 ← dropLit (skipWs r1) [eqChar]
  let r3 ← dropLit (skipWs r2) [lbraceChar]
  let (body, _) ← splitAtLast rbraceChar r3
  pure (s.take (s.length - r3.length) ++ body ++ [rbraceChar])

def wrapperMatch (s : List Char) : Option (List Char) :=
  scanFirst wrapperAt s

/-- JS `content.split(',')`. -/
def splitOnComma : List Char → List (List Char)
  | [] => [[]]
  | c :: t =>
    if c == commaChar then [] :: splitOnComma t
    else
      match splitOnComma t with
      | [] => [[c]]
      | h :: r => (c :: h) :: r

/-- The first `'([^']*)'` capture in a piece, if any. -/
def firstQuoted : List Char → Option (List Char)
  | [] => none
  | c :: t =>
    if c == quoteChar then
      match captureUntil quoteChar t with
      | some (cap, _) => some cap
      | none => none
    else firstQuoted t

/-- `content.split(',').map(s => s.match(/'([^']*)'/)?.[1]).filter(≠ null)`:
the quoted names in a `{...}` section body. -/
def parseQuotedList (content : List Char) : List String :=
  (splitOnComma content).filterMap (fun piece => (firstQuoted piece).map String.mk)

/-- One `('from', 'symbol'): 'to'` entry of the transitions block. -/
structure TransitionEntry where
  tfrom : String
  input : String
  tto : String
deriving DecidableEq

/-- One-position matcher for `/\('([^']*)',\s*'([^']*)'\):\s*'([^']*)'/`,
returning the entry and the rest of the input after the match. -/
def transitionAt (s : List Char) : Option (TransitionEntry × List Char) := do
  let r1 ← dropLit s [lparenChar, quoteChar]
  let (cap1, r2) ← captureUntil quoteChar r1
  let r3 ← dropLit r2 [commaChar]
  let r4 ← dropLit (skipWs r3) [quoteChar]
  let (cap2, r5) ← captureUntil quoteChar r4
  let r6 ← dropLit r5 [rparenChar, colonChar]
  let r7 ← dropLit (skipWs r6) [quoteChar]
  let (cap3, r8) ← captureUntil quoteChar r7
  pure (⟨String.mk cap1, String.mk cap2, String.mk cap3⟩, r8)

/-- Repeated `transitionRegex.exec` over the transitions region (fuel is
the region length, enough since every step consumes at least one char). -/
def scanTransitions : Nat → List Char → List TransitionEntry
  | 0, _ => []
  | _ + 1, [] => []
  | fuel + 1, c :: t =>
    match transitionAt (c :: t) with
    | some (e, rest) => e :: scanTransitions fuel rest
    | none => scanTransitions fuel t

/-- `specToUse.substring(specToUse.indexOf("'transitions'"))`; when absent,
`indexOf` gives `-1` and `substring(-1)` clamps to the whole string. -/
def suffixFromLit (lit : List Char) : List Char → Option (List Char)
  | [] => none
  | c :: t => if startsWithChars (c :: t) lit then some (c :: t) else suffixFromLit lit t

def transitionsRegion (spec : List Char) : List Char :=
  match suffixFromLit transitionsLit spec with
  | some s => s
  | none => spec

/-- The section data extracted from a spec text (the `initialState` field
is extracted but never used afterwards by the source). -/
structure SpecSections where
  alphabetContent : List Char
  statesContent : List Char
  initialState : String
  acceptingContent : List Char
  transitions : List TransitionEntry
deriving DecidableEq

/-- The parse failure modes (each `throw new Error(...)` of the source). -/
inductive ParseError
  | notAString
  | malformedBlock
  | missingAlphabet
  | missingStates
  | missingInitialState
  | missingAcceptingStates
deriving DecidableEq

/-- Section extraction in source order: alphabet, states, initial state,
accepting states; the transitions scan cannot fail. -/
def extractSections (spec : List Char) : Except ParseError SpecSections :=
  match sectionCapture alphabetKey spec with
  | none => .error .missingAlphabet
  | some alphabetContent =>
    match sectionCapture statesKey spec with
    | none => .error .missingStates
    | some statesContent =>
      match initialStateCapture spec with
      | none => .error .missingInitialState
      | some initialChars =>
        match sectionCapture acceptingStatesKey spec with
        | none => .error .missingAcceptingStates
        | some acceptingContent =>
          .ok { alphabetContent := alphabetContent,
                statesContent := statesContent,
                initialState := String.mk initialChars,
                acceptingContent := acceptingContent,
                transitions :=
                  scanTransitions (transitionsRegion spec).length (transitionsRegion spec) }

/-! ### Specification parser: graph building -/

/-- `stateIdMap[s]`: the map is built by assignments in declaration order
(`stateIdMap[state] = index + 1`), so a duplicate name keeps the id of its
last occurrence. -/
def stateIdOfAux : List String → String → Nat → Option Nat
  | [], _, _ => none
  | n :: ns, s, i =>
    match stateIdOfAux ns s (i + 1) with
    | some j => some j
    | none => if n == s then some i else none

def stateIdOf (names : List String) (s : String) : Option Nat :=
  stateIdOfAux names s 1

/-- The node-building `forEach`: node `index + 1` for each declared state,
accepting iff the name occurs in the accepting list. -/
def buildNodesFrom (acceptingStates : List String) : Nat → List String → List Node
  | _, [] => []
  | i, s :: rest =>
    { id := i, label := s,
      title := if acceptingStates.contains s then some "accepting" else none }
      :: buildNodesFrom acceptingStates (i + 1) rest

def buildNodes (stateNames acceptingStates : List String) : List Node :=
  buildNodesFrom acceptingStates 1 stateNames

/-- One step of the edge-building `forEach`: merge the symbol into an
existing edge with the same `(from, to)` pair, else push a new edge. -/
def addParsedEdge (stateNames : List String) (es : List Edge) (t : TransitionEntry) : List Edge :=
  match es.find? (fun e =>
      e.efrom == stateIdOf stateNames t.tfrom && e.eto == stateIdOf stateNames t.tto) with
  | some existingEdge =>
    if jsIncludes existingEdge.label t.input then es
    else updateFirstEdge (fun e =>
        e.efrom == stateIdOf stateNames t.tfrom && e.eto == stateIdOf stateNames t.tto)
      (fun e => { e with label := e.label ++ ", " ++ t.input }) es
  | none =>
    es ++ [{ efrom := stateIdOf stateNames t.tfrom,
             eto := stateIdOf stateNames t.tto, label := t.input }]

def buildEdges (stateNames : List String) (ts : List TransitionEntry) : List Edge :=
  ts.foldl (addParsedEdge stateNames) []

def buildGraphFromSpec (stateNames acceptingStates : List String)
    (ts : List TransitionEntry) : Graph :=
  { nodes := buildNodes stateNames acceptingStates, edges := buildEdges stateNames ts }

/-- Build the graph from extracted sections; note the `initialState` field
is not consulted (the checkers always start at node id 1). -/
def buildFromSections (sec : SpecSections) : Graph :=
  buildGraphFromSpec (parseQuotedList sec.statesContent)
    (parseQuotedList sec.acceptingContent) sec.transitions

/-- The spec region: a text starting with `SPEC_DFA` is used as-is and the
wrapper regex is never consulted; otherwise the wrapper match is required. -/
def specRegion (text : String) : Option (List Char) :=
  if startsWithChars text.data specDfaLit then some text.data
  else wrapperMatch text.data

/-- `parseDfaSpecification`: full parse of a specification text. -/
def parseDfaSpecification (text : String) : Except ParseError Graph :=
  if text.data.isEmpty then .error .notAString
  else
    match specRegion text with
    | none => .error .malformedBlock
    | some spec => (extractSections spec).map buildFromSections

/-- The surrounding `try`/`catch`: on any parse error the graph state is
not written and keeps its previous value. -/
def applyParse (text : String) (g : Graph) : Graph :=
  match parseDfaSpecification text with
  | .ok g2 => g2
  | .error _ => g

/-! ### Specification serializer (`updateDfaSpecFromGraph`) -/

/-- The structured content `updateDfaSpecFromGraph` writes into the spec
text: a fixed alphabet, the node labels as states, `Start` as initial
state, the accepting labels, and one transition entry per symbol of each
edge's comma-joined label. -/
structure DfaSpecData where
  alphabet : List String
  states : List String
  initialState : String
  acceptingStates : List String
  transitions : List TransitionEntry
deriving DecidableEq

/-- JS `label.split(", ")`. -/
def splitCommaSpace : List Char → List (List Char)
  | [] => [[]]
  | [c] => [[c]]
  | c :: d :: t =>
    if c == commaChar && d == ' ' then [] :: splitCommaSpace t
    else
      match splitCommaSpace (d :: t) with
      | [] => [[c]]
      | h :: r => (c :: h) :: r
termination_by l => l.length

/-- The transition entries contributed by one edge (fails — is caught —
when an endpoint id has no node, as the JS `fromNode.label` would throw). -/
def edgeTransitions (g : Graph) (e : Edge) : Option (List TransitionEntry) := do
  let fromNode ← g.nodes.find? (fun n => some n.id == e.efrom)
  let toNode ← g.nodes.find? (fun n => some n.id == e.eto)
  pure ((splitCommaSpace e.label.data).map
    (fun lab => ⟨fromNode.label, String.mk lab, toNode.label⟩))

def collectTransitions (g : Graph) : List Edge → Option (List TransitionEntry)
  | [] => some []
  | e :: es => do
    let grp ← edgeTransitions g e
    let rest ← collectTransitions g es
    pure (grp ++ rest)

/-- `updateDfaSpecFromGraph`: the structural content of the serialized
specification text (`none` models the caught serializer crash). -/
def updateDfaSpecFromGraph (g : Graph) : Option DfaSpecData := do
  let ts ← collectTransitions g g.edges
  pure { alphabet := ["A", "C", "0"],
         states := g.nodes.map Node.label,
         initialState := "Start",
         acceptingStates := (g.nodes.filter (fun n => n.title == some "accepting")).map Node.label,
         transitions := ts }

/-! ### Canonical shape of mutation-built models (round-trip support)

Models reachable from `defaultGraph` by the mutation operations have a
rigid shape: node `i` (1-based) has id `i` and label `Start` (for id 1)
or `Q<id>`; titles are `none` or `some "accepting"`; every edge joins
existing nodes, carries a non-empty duplicate-free comma-joined list of
alphabet symbols as its label, and no two edges share a `(from, to)`
pair.  The definitions below express that shape; the theorems establish
it for every reachable model and derive the serialize/parse round trip
from it. -/

/-- Decimal digits of `n`, most significant first (the specification of
`Nat.toDigitsCore` at base 10). -/
def digitsAux (n : Nat) : List Char :=
  if h : n < 10 then [Nat.digitChar n]
  else digitsAux (n / 10) ++ [Nat.digitChar (n % 10)]
termination_by n
decreasing_by exact Nat.div_lt_self (by omega) (by omega)

/-- Numeric value of a decimal digit character. -/
def digitVal (c : Char) : Nat := c.toNat - 48

/-- Value of a most-significant-first decimal digit string. -/
def digitsVal (l : List Char) : Nat :=
  l.foldl (fun a c => 10 * a + digitVal c) 0

/-- The label carried by the node of id `k` in every reachable model. -/
def natLabel (k : Nat) : String :=
  if k = 1 then "Start" else "Q" ++ Nat.repr k

/-- The canonical node list: ids `i, i+1, ...` with canonical labels and
the given titles. -/
def canonNodesFrom (i : Nat) : List (Option String) → List Node
  | [] => []
  | t :: ts => { id := i, label := natLabel i, title := t } :: canonNodesFrom (i + 1) ts

/-- The canonical label list of `cnt` states starting at id `i`. -/
def natLabelsFrom (i : Nat) : Nat → List String
  | 0 => []
  | cnt + 1 => natLabel i :: natLabelsFrom (i + 1) cnt

/-- Titles attained by the mutations: absent or `accepting`. -/
def goodTitle (t : Option String) : Prop :=
  t = none ∨ t = some "accepting"

/-- The symbols the UI can put on an edge. -/
def alphaSyms : List String := ["0", "A", "C"]

/-- A well-formed symbol list for one merged edge label. -/
def goodLabelSyms (syms : List String) : Prop :=
  syms ≠ [] ∧ syms.Nodup ∧ ∀ x ∈ syms, x ∈ alphaSyms

/-- The comma-joined label text of a symbol list (how `addEdge` and the
parser's merge branch accumulate labels). -/
def joinSyms : List String → List Char
  | [] => []
  | [s] => s.data
  | s :: s2 :: rest => s.data ++ commaChar :: ' ' :: joinSyms (s2 :: rest)

/-- The `(from, to)` pair of an edge. -/
def pairOf (e : Edge) : Option Nat × Option Nat := (e.efrom, e.eto)

/-- A well-formed edge of a model with `n` states. -/
def edgeOk (n : Nat) (e : Edge) : Prop :=
  ∃ f t syms, e.efrom = some f ∧ e.eto = some t ∧
    1 ≤ f ∧ f ≤ n ∧ 1 ≤ t ∧ t ≤ n ∧
    goodLabelSyms syms ∧ e.label.data = joinSyms syms

/-- The invariant maintained by every mutation: canonical nodes plus
well-formed edges with pairwise-distinct `(from, to)` pairs. -/
def Inv (g : Graph) : Prop :=
  ∃ titles : List (Option String),
    titles ≠ [] ∧ (∀ t ∈ titles, goodTitle t) ∧
    g.nodes = canonNodesFrom 1 titles ∧
    (∀ e ∈ g.edges, edgeOk titles.length e) ∧
    (g.edges.map pairOf).Nodup

/-! ### Concrete specification texts used by the claims -/

/-- A small reachable model exercising the serializer round trip: an
accepting second state and one merged edge. -/
def c5graph : Graph :=
  (addEdge (addNewState (addNewState defaultGraph true) false) 1 2 "A").graph

/-- A well-formed import text whose transitions declare the pair
`(q0, A)` twice, first targeting `q1` and then `q2`; `q2` is accepting. -/
def c6text : String :=
  "SPEC_DFA = \x7b \x27alphabet\x27: \x7b\x27A\x27\x7d, \x27states\x27: \x7b\x27q0\x27, \x27q1\x27, \x27q2\x27\x7d, \x27initial_state\x27: \x27q0\x27, \x27accepting_states\x27: \x7b\x27q2\x27\x7d, \x27transitions\x27: \x7b (\x27q0\x27, \x27A\x27): \x27q1\x27, (\x27q0\x27, \x27A\x27): \x27q2\x27 \x7d \x7d"

/-- A text that starts with `SPEC_DFA` but has no `SPEC_DFA = { ... }`
wrapper at all, while containing all four required sections. -/
def c9text : String :=
  "SPEC_DFA \x27alphabet\x27: \x7b\x27A\x27\x7d \x27states\x27: \x7b\x27q0\x27\x7d \x27initial_state\x27: \x27q0\x27 \x27accepting_states\x27: \x7b\x7d \x27transitions\x27: none"

/-- Extracted sections of a one-state spec with initial state `q0`. -/
def c10secA : SpecSections :=
  { alphabetContent := [], statesContent := "\x27q0\x27".data,
    initialState := "q0", acceptingContent := [], transitions := [] }

/-- The same sections with a different `initial_state` literal. -/
def c10secB : SpecSections :=
  { c10secA with initialState := "zz" }

/-! ### Helper lemmas about the string and list primitives -/

theorem startsWithChars_refl : ∀ l : List Char, startsWithChars l l = true
  | [] => rfl
  | c :: t => by simp [startsWithChars, startsWithChars_refl t]

theorem containsChars_self (pat : List Char) : containsChars pat pat = true := by
  cases pat with
  | nil => rfl
  | cons c t => simp [containsChars, startsWithChars_refl]

theorem containsChars_append_self (pre pat : List Char) :
    containsChars (pre ++ pat) pat = true := by
  induction pre with
  | nil => simpa using containsChars_self pat
  | cons c t ih => simp [containsChars, ih]

theorem jsIncludes_append_self (s t : String) : jsIncludes (s ++ t) t = true := by
  unfold jsIncludes
  rw [String.data_append]
  exact containsChars_append_self s.data t.data

theorem updateFirstEdge_append {p : Edge → Bool} {f : Edge → Edge}
    (l₁ l₂ : List Edge) (h : ∀ e ∈ l₁, p e = false) :
    updateFirstEdge p f (l₁ ++ l₂) = l₁ ++ updateFirstEdge p f l₂ := by
  induction l₁ with
  | nil => rfl
  | cons e t ih =>
    have he : p e = false := h e (List.mem_cons_self e t)
    simp only [List.cons_append, updateFirstEdge, he, Bool.false_eq_true, if_false,
      List.cons.injEq, true_and]
    exact ih fun x hx => h x (List.mem_cons_of_mem e hx)

theorem find?_updateFirstEdge {p : Edge → Bool} {f : Edge → Edge}
    (hf : ∀ e, p e = true → p (f e) = true) :
    ∀ l : List Edge, (updateFirstEdge p f l).find? p = (l.find? p).map f := by
  intro l
  induction l with
  | nil => rfl
  | cons e t ih =>
    cases hpe : p e
    · simp [updateFirstEdge, List.find?_cons, hpe, ih]
    · simp [updateFirstEdge, List.find?_cons, hpe, hf e hpe]

/-! ### Characterizations of the four `addEdge` branches -/

theorem addEdge_eq_of_includes {g : Graph} {n1 n2 : Nat} {label : String} {e : Edge}
    (h1 : g.edges.find? (fun x => x.efrom == some n1 && x.eto == some n2) = some e)
    (h2 : jsIncludes e.label label = true) :
    addEdge g n1 n2 label = { graph := g, conflict := false } := by
  unfold addEdge
  rw [h1]
  simp [h2]

theorem addEdge_eq_of_merge {g : Graph} {n1 n2 : Nat} {label : String} {e : Edge}
    (h1 : g.edges.find? (fun x => x.efrom == some n1 && x.eto == some n2) = some e)
    (h2 : jsIncludes e.label label = false) :
    addEdge g n1 n2 label =
      { graph := { g with
          edges := updateFirstEdge (fun x => x.efrom == some n1 && x.eto == some n2)
            (fun x => { x with label := x.label ++ ", " ++ label }) g.edges },
        conflict := false } := by
  unfold addEdge
  rw [h1]
  simp [h2]

theorem addEdge_eq_of_conflict {g : Graph} {n1 n2 : Nat} {label : String} {e : Edge}
    (h1 : g.edges.find? (fun x => x.efrom == some n1 && x.eto == some n2) = none)
    (h2 : g.edges.find? (fun x => x.efrom == some n1 && jsIncludes x.label label) = some e) :
    addEdge g n1 n2 label = { graph := g, conflict := true } := by
  unfold addEdge
  rw [h1, h2]

theorem addEdge_eq_of_push {g : Graph} {n1 n2 : Nat} {label : String}
    (h1 : g.edges.find? (fun x => x.efrom == some n1 && x.eto == some n2) = none)
    (h2 : g.edges.find? (fun x => x.efrom == some n1 && jsIncludes x.label label) = none) :
    addEdge g n1 n2 label =
      { graph := { g with
          edges := g.edges ++ [{ efrom := some n1, eto := some n2, label := label }] },
        conflict := false } := by
  unfold addEdge
  rw [h1, h2]

/-- Calling `addEdge` twice with identical arguments: the second call is a
no-op returning the same graph and the same success/failure outcome. -/
theorem addEdge_twice (g : Graph) (n1 n2 : Nat) (label : String) :
    addEdge (addEdge g n1 n2 label).graph n1 n2 label = addEdge g n1 n2 label := by
  cases h1 : g.edges.find? (fun x => x.efrom == some n1 && x.eto == some n2) with
  | some e =>
    cases h2 : jsIncludes e.label label with
    | true =>
      rw [addEdge_eq_of_includes h1 h2]
      exact addEdge_eq_of_includes h1 h2
    | false =>
      rw [addEdge_eq_of_merge h1 h2]
      have hf : ∀ x : Edge, ((fun x : Edge => x.efrom == some n1 && x.eto == some n2) x) = true →
          ((fun x : Edge => x.efrom == some n1 && x.eto == some n2)
            ((fun x : Edge => { x with label := x.label ++ ", " ++ label }) x)) = true := by
        intro x hx
        simpa using hx
      have h3 : ({ g with
          edges := updateFirstEdge (fun x => x.efrom == some n1 && x.eto == some n2)
            (fun x => { x with label := x.label ++ ", " ++ label }) g.edges } : Graph).edges.find?
            (fun x => x.efrom == some n1 && x.eto == some n2) =
          some { e with label := e.label ++ ", " ++ label } := by
        show (updateFirstEdge _ _ g.edges).find? _ = _
        rw [find?_updateFirstEdge hf g.edges, h1]
        rfl
      have h4 : jsIncludes ({ e with label := e.label ++ ", " ++ label } : Edge).label label = true :=
        jsIncludes_append_self (e.label ++ ", ") label
      rw [addEdge_eq_of_includes h3 h4]
  | none =>
    cases h2 : g.edges.find? (fun x => x.efrom == some n1 && jsIncludes x.label label) with
    | some e =>
      rw [addEdge_eq_of_conflict h1 h2]
      exact addEdge_eq_of_conflict h1 h2
    | none =>
      rw [addEdge_eq_of_push h1 h2]
      have h3 : ({ g with
          edges := g.edges ++ [{ efrom := some n1, eto := some n2, label := label }] } : Graph).edges.find?
            (fun x => x.efrom == some n1 && x.eto == some n2) =
          some { efrom := some n1, eto := some n2, label := label } := by
        show ((g.edges ++ _).find? _) = _
        rw [List.find?_append, h1]
        simp [List.find?_cons]
      have h4 : jsIncludes label label = true := containsChars_self label.data
      rw [addEdge_eq_of_includes h3 h4]

/-! ### Animated run versus batch run -/

theorem map_node_eta (l : List Node) :
    l.map (fun n => ({ id := n.id, label := n.label, title := n.title } : Node)) = l := by
  induction l with
  | nil => rfl
  | cons n t ih => simp only [List.map_cons, ih]

theorem map_edge_eta (l : List Edge) :
    l.map (fun e => ({ efrom := e.efrom, eto := e.eto, label := e.label } : Edge)) = l := by
  induction l with
  | nil => rfl
  | cons e t ih => simp only [List.map_cons, ih]

theorem resetAnimationColors_eq (g : Graph) : resetAnimationColors g = g := by
  unfold resetAnimationColors
  rw [map_node_eta, map_edge_eta]

theorem titleAccepting_eq (t : Option String) :
    titleAccepting t = animTitleAccepting t := by
  cases t with
  | none => rfl
  | some s =>
    have hsome : ∀ a b : String, (some a == some b) = (a == b) := fun _ _ => rfl
    cases hs : s == "accepting" with
    | true =>
      have : s = "accepting" := eq_of_beq hs
      subst this
      decide
    | false =>
      simp [titleAccepting, animTitleAccepting, hsome, hs]

theorem animateFrom_eq_checkFrom (g : Graph) (h : edgeTargetsValid g) :
    ∀ (input : List Char) (curr : Option Nat) (acc : Bool),
      animateFrom g curr acc input = checkFrom g curr acc input := by
  intro input
  induction input with
  | nil => intro curr acc; rfl
  | cons value rest ih =>
    intro curr acc
    cases he : findNextEdge g curr value with
    | none => simp only [animateFrom, checkFrom, he]
    | some nextEdge =>
      have hmem : nextEdge ∈ g.edges := List.mem_of_find?_eq_some he
      obtain ⟨nd, hnd, hid⟩ := h nextEdge hmem
      have hsome : (findNode g nextEdge.eto).isSome := by
        unfold findNode
        rw [List.find?_isSome]
        exact ⟨nd, hnd, by simp [hid]⟩
      obtain ⟨n', hn'⟩ := Option.isSome_iff_exists.mp hsome
      cases rest with
      | nil => simp only [animateFrom, checkFrom, he, hn', titleAccepting_eq]
      | cons r rs =>
        simp only [animateFrom, checkFrom, he, hn']
        exact ih _ _

/-! ### Claim theorems -/

/-- C1 (corrected): the spec claims the batch check accepts the empty
input unconditionally; in the code `accepted` is initialised to
`inputString.length > 0`, so the empty input is rejected even when the
initial state is accepting.  Concrete refutation: on the model whose
start state has been made accepting, the empty input yields the verdict
`false` ("String not accepted"). -/
theorem c1_counterexample :
    checkInputString (makeStartStateAccepting defaultGraph) [] = some false ∧
    findNode (makeStartStateAccepting defaultGraph) (some 1) =
      some { id := 1, label := "Start", title := some "accepting" } := by
  constructor
  · rfl
  · decide

/-- C1 (amended): for every model, the batch acceptance check on the
empty input string returns the verdict Rejected unconditionally,
regardless of whether the initial state is accepting. -/
theorem c1 (g : Graph) : checkInputString g [] = some false := rfl

/-- C2 (code bug): determinism is violated on a model reachable by valid
mutations: after `addEdge 1 2 "A"`, `addEdge 1 3 "0"`, `addEdge 1 2 "0"`,
state 1 has two outgoing edges whose labels both contain the symbol `0`,
because the label-merging branch of `addEdge` skips the conflict check. -/
theorem c2 : Reachable g2bug ∧ ¬ deterministicFor g2bug 1 "0" := by
  constructor
  · exact Reachable.addTransition _ 1 2 "0"
      (Reachable.addTransition _ 1 3 "0"
        (Reachable.addTransition _ 1 2 "A"
          (Reachable.addState _ false (Reachable.addState _ false Reachable.init))
          (by decide) (by decide) (by decide))
        (by decide) (by decide) (by decide))
      (by decide) (by decide) (by decide)
  · decide

/-- C3 (code bug): with a pre-existing edge `1 --C--> 3`, the call
`addEdge 1 2 "A"` succeeds, but the subsequent conflicting call
`addEdge 1 3 "A"` (same source, same symbol, different target 3 ≠ 2) does
not fail: it silently merges `A` onto the `1 --> 3` edge and changes the
transition table, contradicting the claimed conflict rejection. -/
theorem c3 :
    Reachable (addEdge g3base 1 2 "A").graph ∧
    (addEdge g3base 1 2 "A").conflict = false ∧
    (addEdge (addEdge g3base 1 2 "A").graph 1 3 "A").conflict = false ∧
    ¬ (addEdge (addEdge g3base 1 2 "A").graph 1 3 "A").graph = (addEdge g3base 1 2 "A").graph := by
  refine ⟨?_, by decide, by decide, by decide⟩
  exact Reachable.addTransition _ 1 2 "A"
    (Reachable.addTransition _ 1 3 "C"
      (Reachable.addState _ false (Reachable.addState _ false Reachable.init))
      (by decide) (by decide) (by decide))
    (by decide) (by decide) (by decide)

/-- C4 (confirmed): for every model whose edge targets all refer to
existing nodes, and every input string, the terminal verdict of the
animated acceptance run equals the verdict of the batch acceptance
check. -/
theorem c4 (g : Graph) (input : List Char) (h : edgeTargetsValid g) :
    animateCheckInputString g input = checkInputString g input := by
  unfold animateCheckInputString checkInputString
  rw [resetAnimationColors_eq]
  exact animateFrom_eq_checkFrom g h input (some 1) (decide (0 < input.length))

/-- Witness for C4 at a concrete model and input. -/
theorem c4_witness :
    edgeTargetsValid g2bug ∧
    animateCheckInputString g2bug ['A', '0'] = checkInputString g2bug ['A', '0'] :=
  ⟨by decide, c4 g2bug ['A', '0'] (by decide)⟩

/-- C7 (confirmed): starting from a model where state X has no outgoing
edges, adding a transition X→Y on `A` and then X→Y on `C` yields exactly
one projected edge between X and Y, labelled `A, C`, whose merged label
contains both symbols. -/
theorem c7 (g : Graph) (X Y : Nat) (h : ∀ e ∈ g.edges, (e.efrom == some X) = false) :
    ((addEdge (addEdge g X Y "A").graph X Y "C").graph.edges.filter
        (fun e => e.efrom == some X && e.eto == some Y)) =
      [{ efrom := some X, eto := some Y, label := "A, C" }] ∧
    jsIncludes "A, C" "A" = true ∧ jsIncludes "A, C" "C" = true := by
  have h1 : g.edges.find? (fun x => x.efrom == some X && x.eto == some Y) = none :=
    List.find?_eq_none.mpr (by intro e he; simp [h e he])
  have h2 : g.edges.find? (fun x => x.efrom == some X && jsIncludes x.label "A") = none :=
    List.find?_eq_none.mpr (by intro e he; simp [h e he])
  rw [addEdge_eq_of_push h1 h2]
  have h3 : ({ g with
      edges := g.edges ++ [{ efrom := some X, eto := some Y, label := "A" }] } : Graph).edges.find?
        (fun x => x.efrom == some X && x.eto == some Y) =
      some { efrom := some X, eto := some Y, label := "A" } := by
    show ((g.edges ++ _).find? _) = _
    rw [List.find?_append, h1]
    simp [List.find?_cons]
  have h4 : jsIncludes "A" "C" = false := by decide
  rw [addEdge_eq_of_merge h3 h4]
  have h5 : updateFirstEdge (fun x => x.efrom == some X && x.eto == some Y)
      (fun x => { x with label := x.label ++ ", " ++ "C" })
      (g.edges ++ [{ efrom := some X, eto := some Y, label := "A" }]) =
      g.edges ++ [{ efrom := some X, eto := some Y, label := "A, C" }] := by
    rw [updateFirstEdge_append _ _ (by intro e he; simp [h e he])]
    have h5a : updateFirstEdge (fun x => x.efrom == some X && x.eto == some Y)
        (fun x => { x with label := x.label ++ ", " ++ "C" })
        [{ efrom := some X, eto := some Y, label := "A" }] =
        [{ efrom := some X, eto := some Y, label := "A, C" }] := by
      simp [updateFirstEdge]
    rw [h5a]
  refine ⟨?_, by decide, by decide⟩
  show (updateFirstEdge _ _ (g.edges ++ _)).filter _ = _
  rw [h5, List.filter_append]
  have h6 : g.edges.filter (fun e => e.efrom == some X && e.eto == some Y) = [] := by
    rw [List.filter_eq_nil_iff]
    intro e he
    simp [h e he]
  rw [h6]
  simp

/-- Witness for C7 at a concrete model: states 1 and 2, no edges. -/
theorem c7_witness :
    (∀ e ∈ (addNewState defaultGraph false).edges, (e.efrom == some 1) = false) ∧
    (((addEdge (addEdge (addNewState defaultGraph false) 1 2 "A").graph 1 2 "C").graph.edges.filter
        (fun e => e.efrom == some 1 && e.eto == some 2)) =
      [{ efrom := some 1, eto := some 2, label := "A, C" }] ∧
    jsIncludes "A, C" "A" = true ∧ jsIncludes "A, C" "C" = true) :=
  ⟨by decide, c7 (addNewState defaultGraph false) 1 2 (by decide)⟩

/-- C8 (corrected): calling `addEdge` twice with identical arguments
leaves the model after the second call equal to the model after the first
call, and the second call succeeds exactly when the first did (it need
not succeed: the first call itself can hit the conflict branch). -/
theorem c8 (g : Graph) (n1 n2 : Nat) (label : String) :
    (addEdge (addEdge g n1 n2 label).graph n1 n2 label).graph = (addEdge g n1 n2 label).graph ∧
    (addEdge (addEdge g n1 n2 label).graph n1 n2 label).conflict = (addEdge g n1 n2 label).conflict := by
  rw [addEdge_twice]
  exact ⟨rfl, rfl⟩

/-- C8 counterexample to the claim as stated: on a model with a
pre-existing edge `1 --C--> 3`, the (first) call `addEdge 1 2 "C"`
already fails with the conflict alert, so "succeeds both times" does not
hold for every model. -/
theorem c8_counterexample : (addEdge g3base 1 2 "C").conflict = true := by decide

/-! ### Parser error handling (C9) -/

/-- C9 (amended): parse error behaviour.  When the text does not start
with `SPEC_DFA` and the wrapper regex has no match, parse fails with the
malformed-block error; when a spec region is obtained, the first absent
section among alphabet, states, initial_state, accepting_states (in that
order) produces its missing-section error; and every parse error leaves
the model unchanged.  (The original claim's unconditional wrapper check
is wrong: a text starting with `SPEC_DFA` skips the wrapper check
entirely, see the counterexample.) -/
theorem c9 (text : String) (g : Graph) :
    (text.data ≠ [] → specRegion text = none →
      parseDfaSpecification text = Except.error ParseError.malformedBlock) ∧
    (∀ spec, text.data ≠ [] → specRegion text = some spec →
      (sectionCapture alphabetKey spec = none →
        parseDfaSpecification text = Except.error ParseError.missingAlphabet) ∧
      (∀ a, sectionCapture alphabetKey spec = some a →
        sectionCapture statesKey spec = none →
        parseDfaSpecification text = Except.error ParseError.missingStates) ∧
      (∀ a b, sectionCapture alphabetKey spec = some a →
        sectionCapture statesKey spec = some b →
        initialStateCapture spec = none →
        parseDfaSpecification text = Except.error ParseError.missingInitialState) ∧
      (∀ a b c, sectionCapture alphabetKey spec = some a →
        sectionCapture statesKey spec = some b →
        initialStateCapture spec = some c →
        sectionCapture acceptingStatesKey spec = none →
        parseDfaSpecification text = Except.error ParseError.missingAcceptingStates)) ∧
    (∀ e, parseDfaSpecification text = Except.error e → applyParse text g = g) := by
  have hne : text.data ≠ [] → text.data.isEmpty = false := by
    intro hn
    cases htd : text.data with
    | nil => exact absurd htd hn
    | cons a t => rfl
  refine ⟨?_, ?_, ?_⟩
  · intro h1 h2
    simp [parseDfaSpecification, hne h1, h2]
  · intro spec h1 h2
    have hbase : parseDfaSpecification text = (extractSections spec).map buildFromSections := by
      simp [parseDfaSpecification, hne h1, h2]
    refine ⟨?_, ?_, ?_, ?_⟩
    · intro ha
      rw [hbase]
      simp [extractSections, ha, Except.map]
    · intro a ha hs
      rw [hbase]
      simp [extractSections, ha, hs, Except.map]
    · intro a b ha hs hi
      rw [hbase]
      simp [extractSections, ha, hs, hi, Except.map]
    · intro a b c ha hs hi hacc
      rw [hbase]
      simp [extractSections, ha, hs, hi, hacc, Except.map]
  · intro e he
    unfold applyParse
    rw [he]

/-- Witness for C9: a text with no `SPEC_DFA` at all fails with the
malformed-block error and leaves the model unchanged; a text that passes
the wrapper stage but lacks an alphabet section fails with the
missing-alphabet error. -/
theorem c9_witness :
    parseDfaSpecification "x" = Except.error ParseError.malformedBlock ∧
    parseDfaSpecification "SPEC_DFA nothing" = Except.error ParseError.missingAlphabet ∧
    applyParse "x" defaultGraph = defaultGraph := by
  have h1 : parseDfaSpecification "x" = Except.error ParseError.malformedBlock :=
    (c9 "x" defaultGraph).1 (by decide) (by decide)
  refine ⟨h1, ?_, (c9 "x" defaultGraph).2.2 ParseError.malformedBlock h1⟩
  exact ((c9 "SPEC_DFA nothing" defaultGraph).2.1 "SPEC_DFA nothing".data
    (by decide) (by decide)).1 (by decide)

/-- C9 counterexample to the claim as stated: `c9text` starts with
`SPEC_DFA` but contains no `SPEC_DFA = { ... }` wrapper (the wrapper
regex finds no match), yet parse succeeds instead of failing with a
malformed-block error, because the wrapper is only checked when the text
does not already start with `SPEC_DFA`. -/
theorem c9_counterexample :
    wrapperMatch c9text.data = none ∧
    (parseDfaSpecification c9text).toOption.isSome = true := by
  exact ⟨rfl, rfl⟩

/-! ### Duplicate transitions in imported text (C6) -/

/-- A `find?` whose predicate is a conjunction equals `find?` of the second
conjunct over the `filter` by the first. -/
theorem find?_and_eq_find?_filter (p q : Edge → Bool) :
    ∀ l : List Edge, l.find? (fun e => p e && q e) = (l.filter p).find? q := by
  intro l
  induction l with
  | nil => rfl
  | cons a t ih =>
    cases hpa : p a
    · have h1 : List.find? (fun e => p e && q e) (a :: t) =
          List.find? (fun e => p e && q e) t := by
        rw [List.find?_cons]
        simp [hpa]
      have h2 : List.filter p (a :: t) = List.filter p t := by
        rw [List.filter_cons]
        simp [hpa]
      rw [h1, h2]
      exact ih
    · have h2 : List.filter p (a :: t) = a :: List.filter p t := by
        rw [List.filter_cons]
        simp [hpa]
      rw [h2, List.find?_cons, List.find?_cons, hpa, Bool.true_and]
      cases hqa : q a
      · exact ih
      · rfl

/-- The checker resolves `(state, symbol)` to the FIRST edge out of the
state, in edge-list order, whose merged label contains the symbol. -/
theorem findNextEdge_first_match (g : Graph) (n : Option Nat) (c : Char) :
    findNextEdge g n c =
      (g.edges.filter (fun e => e.efrom == n)).find?
        (fun e => containsChars e.label.data [c]) :=
  find?_and_eq_find?_filter (fun e => e.efrom == n)
    (fun e => containsChars e.label.data [c]) g.edges

/-- C6 (amended): when an imported specification text declares the same
`(from, symbol)` pair twice with different targets, parse succeeds, but
there is no keyed transition table for the later value to overwrite:
each declaration merges into (or creates) the edge keyed on its
`(from, target)` pair, and the acceptance check resolves
`(from, symbol)` to the target of the first edge out of `from`, in
edge-creation order, whose merged label contains the symbol.  When the
duplicates create two separate edges, the earlier declared target wins
(first conjunct family: targets `t1` then `t2`, resolution to id 2);
when an earlier edge from `from` to the later declared target already
exists, the symbol merges into that edge and the LATER declared target
wins (second family: a prior `cb`-transition to `t2`, resolution of
`ca` to id 3 via the merged label). -/
theorem c6 (s t1 t2 : String) (ca cb : Char)
    (h1 : s ≠ t1) (h2 : s ≠ t2) (h3 : t1 ≠ t2) (hba : cb ≠ ca) (acc : List String) :
    (∀ (g : Graph) (n : Option Nat) (c : Char),
      findNextEdge g n c =
        (g.edges.filter (fun e => e.efrom == n)).find?
          (fun e => containsChars e.label.data [c])) ∧
    (buildGraphFromSpec [s, t1, t2] acc
        [⟨s, String.mk [ca], t1⟩, ⟨s, String.mk [ca], t2⟩]).edges =
      [Edge.mk (some 1) (some 2) (String.mk [ca]),
       Edge.mk (some 1) (some 3) (String.mk [ca])] ∧
    findNextEdge (buildGraphFromSpec [s, t1, t2] acc
        [⟨s, String.mk [ca], t1⟩, ⟨s, String.mk [ca], t2⟩]) (some 1) ca =
      some (Edge.mk (some 1) (some 2) (String.mk [ca])) ∧
    (buildGraphFromSpec [s, t1, t2] acc
        [⟨s, String.mk [cb], t2⟩, ⟨s, String.mk [ca], t1⟩,
         ⟨s, String.mk [ca], t2⟩]).edges =
      [Edge.mk (some 1) (some 3) (String.mk [cb] ++ ", " ++ String.mk [ca]),
       Edge.mk (some 1) (some 2) (String.mk [ca])] ∧
    findNextEdge (buildGraphFromSpec [s, t1, t2] acc
        [⟨s, String.mk [cb], t2⟩, ⟨s, String.mk [ca], t1⟩,
         ⟨s, String.mk [ca], t2⟩]) (some 1) ca =
      some (Edge.mk (some 1) (some 3) (String.mk [cb] ++ ", " ++ String.mk [ca])) ∧
    stateIdOf [s, t1, t2] t1 = some 2 ∧ stateIdOf [s, t1, t2] t2 = some 3 := by
  have hss : (s == s) = true := beq_self_eq_true s
  have ht1s : (t1 == s) = false := beq_eq_false_iff_ne.mpr (Ne.symm h1)
  have ht2s : (t2 == s) = false := beq_eq_false_iff_ne.mpr (Ne.symm h2)
  have ht1t1 : (t1 == t1) = true := beq_self_eq_true t1
  have ht2t1 : (t2 == t1) = false := beq_eq_false_iff_ne.mpr (Ne.symm h3)
  have ht2t2 : (t2 == t2) = true := beq_self_eq_true t2
  have hbac : (cb == ca) = false := beq_eq_false_iff_ne.mpr hba
  have hids : stateIdOf [s, t1, t2] s = some 1 := by
    simp [stateIdOf, stateIdOfAux, hss, ht1s, ht2s]
  have hid1 : stateIdOf [s, t1, t2] t1 = some 2 := by
    simp [stateIdOf, stateIdOfAux, ht1t1, ht2t1]
  have hid2 : stateIdOf [s, t1, t2] t2 = some 3 := by
    simp [stateIdOf, stateIdOfAux, ht2t2]
  have hmk : (String.mk [ca]).data = [ca] := rfl
  have hedges1 : (buildGraphFromSpec [s, t1, t2] acc
      [⟨s, String.mk [ca], t1⟩, ⟨s, String.mk [ca], t2⟩]).edges =
      [Edge.mk (some 1) (some 2) (String.mk [ca]),
       Edge.mk (some 1) (some 3) (String.mk [ca])] := by
    show buildEdges [s, t1, t2] [⟨s, String.mk [ca], t1⟩, ⟨s, String.mk [ca], t2⟩] = _
    simp [buildEdges, addParsedEdge, hids, hid1, hid2, List.find?_cons]
  have hfind1 : findNextEdge (buildGraphFromSpec [s, t1, t2] acc
      [⟨s, String.mk [ca], t1⟩, ⟨s, String.mk [ca], t2⟩]) (some 1) ca =
      some (Edge.mk (some 1) (some 2) (String.mk [ca])) := by
    show (buildGraphFromSpec [s, t1, t2] acc
        [⟨s, String.mk [ca], t1⟩, ⟨s, String.mk [ca], t2⟩]).edges.find? _ = _
    rw [hedges1]
    simp [List.find?_cons, hmk, containsChars_self]
  have hedges2 : (buildGraphFromSpec [s, t1, t2] acc
      [⟨s, String.mk [cb], t2⟩, ⟨s, String.mk [ca], t1⟩,
       ⟨s, String.mk [ca], t2⟩]).edges =
      [Edge.mk (some 1) (some 3) (String.mk [cb] ++ ", " ++ String.mk [ca]),
       Edge.mk (some 1) (some 2) (String.mk [ca])] := by
    show buildEdges [s, t1, t2]
        [⟨s, String.mk [cb], t2⟩, ⟨s, String.mk [ca], t1⟩, ⟨s, String.mk [ca], t2⟩] = _
    simp [buildEdges, addParsedEdge, hids, hid1, hid2, List.find?_cons,
      jsIncludes, updateFirstEdge, containsChars, startsWithChars, hbac]
  have hdata2 : (String.mk [cb] ++ ", " ++ String.mk [ca]).data = [cb, ',', ' ', ca] := by
    rw [String.data_append, String.data_append]
    rfl
  have hfind2 : findNextEdge (buildGraphFromSpec [s, t1, t2] acc
      [⟨s, String.mk [cb], t2⟩, ⟨s, String.mk [ca], t1⟩,
       ⟨s, String.mk [ca], t2⟩]) (some 1) ca =
      some (Edge.mk (some 1) (some 3) (String.mk [cb] ++ ", " ++ String.mk [ca])) := by
    show (buildGraphFromSpec [s, t1, t2] acc
        [⟨s, String.mk [cb], t2⟩, ⟨s, String.mk [ca], t1⟩,
         ⟨s, String.mk [ca], t2⟩]).edges.find? _ = _
    rw [hedges2]
    simp [List.find?_cons, hdata2, containsChars, startsWithChars]
  exact ⟨fun g n c => findNextEdge_first_match g n c,
    hedges1, hfind1, hedges2, hfind2, hid1, hid2⟩

/-- Witness for C6 at concrete names and symbols, exercising both the
separate-edges (earlier target wins) and merged-edge (later target wins)
regimes. -/
theorem c6_witness :
    ("q0" : String) ≠ "q1" ∧ ("q0" : String) ≠ "q2" ∧ ("q1" : String) ≠ "q2" ∧
    ('C' : Char) ≠ 'A' ∧
    findNextEdge (buildGraphFromSpec ["q0", "q1", "q2"] ["q2"]
        [⟨"q0", String.mk ['A'], "q1"⟩, ⟨"q0", String.mk ['A'], "q2"⟩]) (some 1) 'A' =
      some (Edge.mk (some 1) (some 2) (String.mk ['A'])) ∧
    findNextEdge (buildGraphFromSpec ["q0", "q1", "q2"] ["q2"]
        [⟨"q0", String.mk ['C'], "q2"⟩, ⟨"q0", String.mk ['A'], "q1"⟩,
         ⟨"q0", String.mk ['A'], "q2"⟩]) (some 1) 'A' =
      some (Edge.mk (some 1) (some 3) (String.mk ['C'] ++ ", " ++ String.mk ['A'])) :=
  ⟨by decide, by decide, by decide, by decide,
    (c6 "q0" "q1" "q2" 'A' 'C' (by decide) (by decide) (by decide)
      (by decide) ["q2"]).2.2.1,
    (c6 "q0" "q1" "q2" 'A' 'C' (by decide) (by decide) (by decide)
      (by decide) ["q2"]).2.2.2.2.1⟩

/-- C6 counterexample to the claim as stated: importing `c6text` (the
pair `(q0, A)` declared twice, first to `q1`, then to the accepting
`q2`) succeeds, yet input `A` is rejected: the effective transition goes
to the earlier target `q1`, not the later accepting `q2` as claimed. -/
theorem c6_counterexample :
    (parseDfaSpecification c6text).toOption.map Graph.edges =
      some [{ efrom := some 1, eto := some 2, label := "A" },
            { efrom := some 1, eto := some 3, label := "A" }] ∧
    (parseDfaSpecification c6text).toOption.map (fun g => (findNode g (some 3)).map Node.title) =
      some (some (some "accepting")) ∧
    (parseDfaSpecification c6text).toOption.map (fun g => checkInputString g ['A']) =
      some (some false) :=
  ⟨rfl, rfl, rfl⟩

/-! ### The ignored `initial_state` section (C10) -/

/-- C10 (confirmed): two well-formed specifications that differ only in
the (non-empty) `initial_state` literal produce identical models and
identical batch verdicts on every input: the extracted `initialState`
value is never consulted, execution always starts at the first declared
state (id 1). -/
theorem c10 (sec1 sec2 : SpecSections)
    (halph : sec1.alphabetContent = sec2.alphabetContent)
    (hstates : sec1.statesContent = sec2.statesContent)
    (hacc : sec1.acceptingContent = sec2.acceptingContent)
    (htrans : sec1.transitions = sec2.transitions)
    (hi1 : sec1.initialState ≠ "") (hi2 : sec2.initialState ≠ "") :
    buildFromSections sec1 = buildFromSections sec2 ∧
    ∀ input, checkInputString (buildFromSections sec1) input =
      checkInputString (buildFromSections sec2) input := by
  have hg : buildFromSections sec1 = buildFromSections sec2 := by
    unfold buildFromSections
    rw [hstates, hacc, htrans]
  exact ⟨hg, fun input => by rw [hg]⟩

/-- Witness for C10: concrete sections differing only in the
`initial_state` literal. -/
theorem c10_witness :
    c10secA.initialState ≠ "" ∧ c10secB.initialState ≠ "" ∧
    buildFromSections c10secA = buildFromSections c10secB ∧
    checkInputString (buildFromSections c10secA) ['A'] =
      checkInputString (buildFromSections c10secB) ['A'] :=
  ⟨by decide, by decide,
    (c10 c10secA c10secB rfl rfl rfl rfl (by decide) (by decide)).1,
    (c10 c10secA c10secB rfl rfl rfl rfl (by decide) (by decide)).2 ['A']⟩

/-! ### Injectivity of the decimal representation (for `Q<id>` labels) -/

theorem toDigitsCore_eq_digitsAux :
    ∀ (fuel n : Nat) (ds : List Char), n < fuel →
      Nat.toDigitsCore 10 fuel n ds = digitsAux n ++ ds := by
  intro fuel
  induction fuel with
  | zero => intro n ds h; exact absurd h (Nat.not_lt_zero n)
  | succ f ih =>
    intro n ds h
    show (if n / 10 = 0 then Nat.digitChar (n % 10) :: ds
      else Nat.toDigitsCore 10 f (n / 10) (Nat.digitChar (n % 10) :: ds)) = digitsAux n ++ ds
    by_cases h10 : n / 10 = 0
    · rw [if_pos h10]
      have hn : n < 10 := by omega
      rw [digitsAux, dif_pos hn, Nat.mod_eq_of_lt hn]
      rfl
    · rw [if_neg h10]
      have hge : 10 ≤ n := by
        by_contra hc
        exact h10 (Nat.div_eq_of_lt (by omega))
      have hlt : n / 10 < f := by
        have : n / 10 < n := Nat.div_lt_self (by omega) (by omega)
        omega
      rw [ih (n / 10) (Nat.digitChar (n % 10) :: ds) hlt]
      conv_rhs => rw [digitsAux]
      rw [dif_neg (by omega)]
      simp

theorem digitVal_digitChar : ∀ n, n < 10 → digitVal (Nat.digitChar n) = n := by decide

theorem digitsVal_digitsAux (n : Nat) : digitsVal (digitsAux n) = n := by
  induction n using Nat.strong_induction_on with
  | _ n ih =>
    rw [digitsAux]
    by_cases h : n < 10
    · rw [dif_pos h]
      show 10 * 0 + digitVal (Nat.digitChar n) = n
      rw [digitVal_digitChar n h]
      omega
    · rw [dif_neg h]
      have hdiv : n / 10 < n := Nat.div_lt_self (by omega) (by omega)
      have hfold : digitsVal (digitsAux (n / 10) ++ [Nat.digitChar (n % 10)]) =
          10 * digitsVal (digitsAux (n / 10)) + digitVal (Nat.digitChar (n % 10)) := by
        unfold digitsVal
        rw [List.foldl_append]
        rfl
      rw [hfold, ih (n / 10) hdiv, digitVal_digitChar (n % 10) (Nat.mod_lt n (by omega))]
      omega

theorem natRepr_injective {m n : Nat} (h : Nat.repr m = Nat.repr n) : m = n := by
  have hdig : digitsAux m = digitsAux n := by
    have hd := congrArg String.data h
    have em : Nat.toDigits 10 m = digitsAux m := by
      unfold Nat.toDigits
      simpa using toDigitsCore_eq_digitsAux (m + 1) m [] (Nat.lt_succ_self m)
    have en : Nat.toDigits 10 n = digitsAux n := by
      unfold Nat.toDigits
      simpa using toDigitsCore_eq_digitsAux (n + 1) n [] (Nat.lt_succ_self n)
    simpa [Nat.repr, List.asString, em, en] using hd
  calc m = digitsVal (digitsAux m) := (digitsVal_digitsAux m).symm
    _ = digitsVal (digitsAux n) := by rw [hdig]
    _ = n := digitsVal_digitsAux n

theorem natLabel_injective {a b : Nat} (h : natLabel a = natLabel b) : a = b := by
  unfold natLabel at h
  by_cases ha : a = 1 <;> by_cases hb : b = 1
  · omega
  · rw [if_pos ha, if_neg hb] at h
    have := congrArg String.data h
    simp [String.data_append] at this
  · rw [if_neg ha, if_pos hb] at h
    have := congrArg String.data h
    simp [String.data_append] at this
  · rw [if_neg ha, if_neg hb] at h
    have hd := congrArg String.data h
    rw [String.data_append, String.data_append] at hd
    have : (Nat.repr a).data = (Nat.repr b).data := by
      simpa using hd
    exact natRepr_injective (by
      cases hra : Nat.repr a with
      | mk la =>
        cases hrb : Nat.repr b with
        | mk lb =>
          rw [hra, hrb] at this
          simp at this
          rw [this])

/-! ### Canonical node-list lemmas -/

theorem some_beq_some (a b : Nat) : (some a == some b) = (a == b) := rfl

theorem canonNodesFrom_append (i : Nat) (l1 l2 : List (Option String)) :
    canonNodesFrom i (l1 ++ l2) =
      canonNodesFrom i l1 ++ canonNodesFrom (i + l1.length) l2 := by
  induction l1 generalizing i with
  | nil => simp [canonNodesFrom]
  | cons t ts ih =>
    show ({ id := i, label := natLabel i, title := t } : Node)
        :: canonNodesFrom (i + 1) (ts ++ l2) = _
    rw [ih (i + 1)]
    have harith : i + 1 + ts.length = i + (t :: ts).length := by
      simp [List.length_cons]
      omega
    rw [harith]
    rfl

theorem mem_canonNodesFrom_facts {nd : Node} :
    ∀ (ts : List (Option String)) (i : Nat), nd ∈ canonNodesFrom i ts →
      i ≤ nd.id ∧ nd.id < i + ts.length ∧ nd.label = natLabel nd.id ∧ nd.title ∈ ts := by
  intro ts
  induction ts with
  | nil => intro i h; simp [canonNodesFrom] at h
  | cons t ts ih =>
    intro i h
    rcases List.mem_cons.mp h with h0 | h1
    · subst h0
      refine ⟨Nat.le_refl i, ?_, rfl, by show t ∈ t :: ts; exact List.mem_cons_self t ts⟩
      show i < i + (t :: ts).length
      simp [List.length_cons]
    · obtain ⟨hle, hlt, hlab, htit⟩ := ih (i + 1) h1
      refine ⟨by omega, ?_, hlab, List.mem_cons_of_mem t htit⟩
      simp only [List.length_cons]
      omega

theorem canonNodesFrom_id_unique :
    ∀ (ts : List (Option String)) (i : Nat) {nd nd' : Node},
      nd ∈ canonNodesFrom i ts → nd' ∈ canonNodesFrom i ts → nd.id = nd'.id → nd = nd' := by
  intro ts
  induction ts with
  | nil => intro i nd nd' h; simp [canonNodesFrom] at h
  | cons t ts ih =>
    intro i nd nd' h h' hid
    rcases List.mem_cons.mp h with h0 | h1 <;> rcases List.mem_cons.mp h' with h0' | h1'
    · rw [h0, h0']
    · subst h0
      have h2 := (mem_canonNodesFrom_facts ts (i + 1) h1').1
      have hid2 : i = nd'.id := hid
      omega
    · subst h0'
      have h2 := (mem_canonNodesFrom_facts ts (i + 1) h1).1
      have hid2 : nd.id = i := hid
      omega
    · exact ih (i + 1) h1 h1' hid

theorem canon_labels :
    ∀ (ts : List (Option String)) (i : Nat),
      (canonNodesFrom i ts).map Node.label = natLabelsFrom i ts.length := by
  intro ts
  induction ts with
  | nil => intro i; rfl
  | cons t ts ih =>
    intro i
    show natLabel i :: (canonNodesFrom (i + 1) ts).map Node.label = _
    rw [ih (i + 1)]
    rfl

theorem mem_nodeIds_canon :
    ∀ (ts : List (Option String)) (i k : Nat),
      k ∈ (canonNodesFrom i ts).map Node.id ↔ i ≤ k ∧ k < i + ts.length := by
  intro ts
  induction ts with
  | nil => intro i k; simp [canonNodesFrom]
  | cons t ts ih =>
    intro i k
    show k ∈ i :: (canonNodesFrom (i + 1) ts).map Node.id ↔ _
    rw [List.mem_cons, ih (i + 1) k]
    simp [List.length_cons]
    omega

theorem maxNodeId_canon :
    ∀ (ts : List (Option String)) (i a : Nat), ts ≠ [] →
      List.foldl (fun m nd => max m nd.id) a (canonNodesFrom i ts) =
        max a (i + ts.length - 1) := by
  intro ts
  induction ts with
  | nil => intro i a h; exact absurd rfl h
  | cons t ts ih =>
    intro i a _
    show List.foldl (fun m nd => max m nd.id) (max a i) (canonNodesFrom (i + 1) ts) = _
    cases ts with
    | nil =>
      show max a i = max a (i + [t].length - 1)
      simp
    | cons t2 ts2 =>
      rw [ih (i + 1) (max a i) (by simp)]
      simp [List.length_cons]
      omega

theorem find_canon (k : Nat) :
    ∀ (ts : List (Option String)) (i : Nat), i ≤ k → k < i + ts.length →
      ∃ nd, (canonNodesFrom i ts).find? (fun n => some n.id == some k) = some nd ∧
        nd.id = k ∧ nd.label = natLabel k ∧ nd ∈ canonNodesFrom i ts := by
  intro ts
  induction ts with
  | nil => intro i h1 h2; simp [canonNodesFrom] at h2; omega
  | cons t ts ih =>
    intro i h1 h2
    by_cases hik : i = k
    · refine ⟨{ id := i, label := natLabel i, title := t }, ?_, hik, by rw [hik], by simp [canonNodesFrom]⟩
      show List.find? _ (_ :: _) = _
      rw [List.find?_cons]
      have : ((some i == some k) : Bool) = true := by
        rw [some_beq_some]
        exact beq_iff_eq.mpr hik
      rw [this]
    · have hlt : k < i + 1 + ts.length := by
        simp [List.length_cons] at h2
        omega
      obtain ⟨nd, hfind, hid, hlab, hmem⟩ := ih (i + 1) (by omega) hlt
      refine ⟨nd, ?_, hid, hlab, List.mem_cons_of_mem _ hmem⟩
      show List.find? _ (_ :: _) = _
      rw [List.find?_cons]
      have : ((some i == some k) : Bool) = false := by
        rw [some_beq_some]
        exact beq_eq_false_iff_ne.mpr hik
      rw [this]
      exact hfind

theorem stateIdOfAux_natLabelsFrom (k : Nat) :
    ∀ (cnt i j : Nat),
      stateIdOfAux (natLabelsFrom i cnt) (natLabel k) j =
        if i ≤ k ∧ k < i + cnt then some (j + (k - i)) else none := by
  intro cnt
  induction cnt with
  | zero =>
    intro i j
    rw [if_neg (by omega)]
    rfl
  | succ c ih =>
    intro i j
    show (match stateIdOfAux (natLabelsFrom (i + 1) c) (natLabel k) (j + 1) with
      | some m => some m
      | none => if natLabel i == natLabel k then some j else none) = _
    rw [ih (i + 1) (j + 1)]
    by_cases hc : i + 1 ≤ k ∧ k < i + 1 + c
    · rw [if_pos hc]
      show some (j + 1 + (k - (i + 1))) = _
      rw [if_pos (show i ≤ k ∧ k < i + (c + 1) by omega)]
      exact congrArg some (by omega)
    · rw [if_neg hc]
      by_cases hik : i = k
      · have hbeq : ((natLabel i == natLabel k) : Bool) = true :=
          beq_iff_eq.mpr (by rw [hik])
        show (if natLabel i == natLabel k then some j else none) = _
        rw [hbeq]
        show some j = _
        rw [if_pos (show i ≤ k ∧ k < i + (c + 1) by omega)]
        exact congrArg some (by omega)
      · have hbeq : ((natLabel i == natLabel k) : Bool) = false :=
          beq_eq_false_iff_ne.mpr (fun he => hik (natLabel_injective he))
        show (if natLabel i == natLabel k then some j else none) = _
        rw [hbeq]
        show none = _
        rw [if_neg (show ¬ (i ≤ k ∧ k < i + (c + 1)) by omega)]

theorem stateIdOf_natLabel (titles : List (Option String)) (k : Nat)
    (h1 : 1 ≤ k) (h2 : k ≤ titles.length) :
    stateIdOf ((canonNodesFrom 1 titles).map Node.label) (natLabel k) = some k := by
  rw [canon_labels]
  unfold stateIdOf
  rw [stateIdOfAux_natLabelsFrom k titles.length 1 1, if_pos (by omega)]
  exact congrArg some (by omega)

/-! ### Merged-label lemmas -/

theorem containsChars_single (c : Char) :
    ∀ l : List Char, containsChars l [c] = true ↔ c ∈ l := by
  intro l
  induction l with
  | nil => simp [containsChars, startsWithChars]
  | cons x t ih =>
    show (startsWithChars (x :: t) [c] || containsChars t [c]) = true ↔ c ∈ x :: t
    have h1 : startsWithChars (x :: t) [c] = (x == c) := by
      show (x == c && startsWithChars t []) = (x == c)
      have : startsWithChars t [] = true := by cases t <;> rfl
      rw [this, Bool.and_true]
    rw [h1, List.mem_cons, Bool.or_eq_true, ih]
    constructor
    · rintro (hx | hm)
      · exact Or.inl (eq_of_beq hx).symm
      · exact Or.inr hm
    · rintro (hx | hm)
      · exact Or.inl (beq_iff_eq.mpr hx.symm)
      · exact Or.inr hm

theorem alpha_single :
    ∀ x ∈ alphaSyms, ∃ c, x.data = [c] ∧ (c == commaChar) = false ∧ (c == ' ') = false := by
  intro x hx
  fin_cases hx
  · exact ⟨'0', rfl, by decide, by decide⟩
  · exact ⟨'A', rfl, by decide, by decide⟩
  · exact ⟨'C', rfl, by decide, by decide⟩

theorem alpha_char_unique :
    ∀ x ∈ alphaSyms, ∀ y ∈ alphaSyms, ∀ c : Char, c ∈ x.data → c ∈ y.data → x = y := by
  intro x hx y hy c hcx hcy
  fin_cases hx <;> fin_cases hy <;> simp_all

theorem mem_joinSyms (c : Char) (hc1 : (c == commaChar) = false) (hc2 : (c == ' ') = false) :
    ∀ syms : List String,
      (c ∈ joinSyms syms ↔ ∃ x ∈ syms, c ∈ x.data) := by
  intro syms
  induction syms with
  | nil => simp [joinSyms]
  | cons s rest ih =>
    cases rest with
    | nil =>
      show c ∈ s.data ↔ _
      simp
    | cons s2 r2 =>
      show c ∈ s.data ++ commaChar :: ' ' :: joinSyms (s2 :: r2) ↔ _
      rw [List.mem_append, List.mem_cons, List.mem_cons, ih]
      have hne1 : ¬ c = commaChar := fun h => by simp [h] at hc1
      have hne2 : ¬ c = ' ' := fun h => by simp [h] at hc2
      constructor
      · rintro (h | h | h | ⟨x, hx, hcx⟩)
        · exact ⟨s, List.mem_cons_self s _, h⟩
        · exact absurd h hne1
        · exact absurd h hne2
        · exact ⟨x, List.mem_cons_of_mem s hx, hcx⟩
      · rintro ⟨x, hx, hcx⟩
        rcases List.mem_cons.mp hx with rfl | hx2
        · exact Or.inl hcx
        · exact Or.inr (Or.inr (Or.inr ⟨x, hx2, hcx⟩))

theorem includes_join_iff (syms : List String) (lab : String)
    (hlab : lab ∈ alphaSyms) (hall : ∀ x ∈ syms, x ∈ alphaSyms) :
    (containsChars (joinSyms syms) lab.data = true ↔ lab ∈ syms) := by
  obtain ⟨c, hdata, hc1, hc2⟩ := alpha_single lab hlab
  rw [hdata, containsChars_single, mem_joinSyms c hc1 hc2]
  constructor
  · rintro ⟨x, hx, hcx⟩
    have : x = lab := by
      refine alpha_char_unique x (hall x hx) lab hlab c hcx ?_
      rw [hdata]
      exact List.mem_singleton.mpr rfl
    rw [← this]
    exact hx
  · intro hmem
    refine ⟨lab, hmem, ?_⟩
    rw [hdata]
    exact List.mem_singleton.mpr rfl

theorem joinSyms_append_single :
    ∀ (syms : List String) (s : String), syms ≠ [] →
      joinSyms (syms ++ [s]) = joinSyms syms ++ commaChar :: ' ' :: s.data := by
  intro syms
  induction syms with
  | nil => intro s h; exact absurd rfl h
  | cons a rest ih =>
    intro s _
    cases rest with
    | nil => rfl
    | cons b r2 =>
      show a.data ++ commaChar :: ' ' :: joinSyms ((b :: r2) ++ [s]) =
        (a.data ++ commaChar :: ' ' :: joinSyms (b :: r2)) ++ commaChar :: ' ' :: s.data
      rw [ih s (by simp)]
      simp

theorem splitCommaSpace_joinSyms :
    ∀ syms : List String, (∀ x ∈ syms, x ∈ alphaSyms) → syms ≠ [] →
      splitCommaSpace (joinSyms syms) = syms.map String.data := by
  intro syms
  induction syms with
  | nil => intro _ h; exact absurd rfl h
  | cons s rest ih =>
    intro hall _
    obtain ⟨c, hdata, hc1, hc2⟩ := alpha_single s (hall s (List.mem_cons_self s rest))
    cases rest with
    | nil =>
      show splitCommaSpace (joinSyms [s]) = [s.data]
      show splitCommaSpace s.data = [s.data]
      rw [hdata]
      simp [splitCommaSpace]
    | cons s2 r2 =>
      have htail := ih (fun x hx => hall x (List.mem_cons_of_mem s hx)) (by simp)
      have h1 : splitCommaSpace (commaChar :: ' ' :: joinSyms (s2 :: r2)) =
          [] :: splitCommaSpace (joinSyms (s2 :: r2)) := by
        simp [splitCommaSpace]
      show splitCommaSpace (s.data ++ commaChar :: ' ' :: joinSyms (s2 :: r2)) =
        s.data :: (s2 :: r2).map String.data
      rw [hdata]
      show splitCommaSpace (c :: commaChar :: ' ' :: joinSyms (s2 :: r2)) = [c] :: _
      simp [splitCommaSpace, hc1, h1, htail]

/-! ### The invariant is maintained by every mutation -/

theorem edgeOk_mono {n m : Nat} {e : Edge} (hnm : n ≤ m) (h : edgeOk n e) : edgeOk m e := by
  obtain ⟨f, t, syms, h1, h2, h3, h4, h5, h6, h7, h8⟩ := h
  exact ⟨f, t, syms, h1, h2, h3, by omega, h5, by omega, h7, h8⟩

theorem updateFirstEdge_mem_of_find? {p : Edge → Bool} {f : Edge → Edge} :
    ∀ {l : List Edge} {e x : Edge}, l.find? p = some e → x ∈ updateFirstEdge p f l →
      x ∈ l ∨ x = f e := by
  intro l
  induction l with
  | nil => intro e x h; simp at h
  | cons a t ih =>
    intro e x hfind hx
    cases hpa : p a
    · rw [List.find?_cons, hpa] at hfind
      simp only [updateFirstEdge, hpa, Bool.false_eq_true, if_false] at hx
      rcases List.mem_cons.mp hx with h0 | h0
      · exact Or.inl (h0 ▸ List.mem_cons_self a t)
      · rcases ih hfind h0 with h3 | h3
        · exact Or.inl (List.mem_cons_of_mem a h3)
        · exact Or.inr h3
    · rw [List.find?_cons, hpa] at hfind
      have hea : e = a := by
        have h' : some a = some e := hfind
        exact (Option.some.injEq a e ▸ h').symm
      simp only [updateFirstEdge, hpa, if_true] at hx
      rcases List.mem_cons.mp hx with h0 | h0
      · exact Or.inr (by rw [h0, hea])
      · exact Or.inl (List.mem_cons_of_mem a h0)

theorem map_pairOf_updateFirstEdge (p : Edge → Bool) (f : Edge → Edge)
    (hf : ∀ e, pairOf (f e) = pairOf e) :
    ∀ l : List Edge, (updateFirstEdge p f l).map pairOf = l.map pairOf := by
  intro l
  induction l with
  | nil => rfl
  | cons a t ih =>
    unfold updateFirstEdge
    cases hpa : p a
    · simp only [hpa, Bool.false_eq_true, if_false, List.map_cons, ih]
    · simp only [hpa, if_true, List.map_cons, hf a]

theorem inv_default : Inv defaultGraph := by
  refine ⟨[none], by simp, ?_, ?_, ?_, ?_⟩
  · intro t ht
    simp at ht
    rw [ht]
    exact Or.inl rfl
  · show defaultGraph.nodes = [{ id := 1, label := natLabel 1, title := none }]
    have : natLabel 1 = "Start" := rfl
    rw [this]
    rfl
  · intro e he
    simp [defaultGraph] at he
  · simp [defaultGraph]

theorem inv_addNewState (g : Graph) (b : Bool) (h : Inv g) : Inv (addNewState g b) := by
  obtain ⟨titles, hne, htit, hnodes, hedges, hpairs⟩ := h
  have hlen : 1 ≤ titles.length := by
    cases titles with
    | nil => exact absurd rfl hne
    | cons _ _ => simp
  have hmax : maxNodeId g = titles.length := by
    unfold maxNodeId
    rw [hnodes, maxNodeId_canon titles 1 0 hne]
    omega
  refine ⟨titles ++ [if b then some "accepting" else none], by simp, ?_, ?_, ?_, ?_⟩
  · intro t ht
    rcases List.mem_append.mp ht with h1 | h1
    · exact htit t h1
    · simp at h1
      rw [h1]
      cases b
      · exact Or.inl rfl
      · exact Or.inr rfl
  · show g.nodes ++ [({ id := maxNodeId g + 1, label := "Q" ++ Nat.repr (maxNodeId g + 1), title := if b then some "accepting" else none } : Node)] = _
    rw [canonNodesFrom_append, hnodes, hmax]
    congr 1
    rw [Nat.add_comm 1 titles.length]
    have hlab : "Q" ++ Nat.repr (titles.length + 1) = natLabel (titles.length + 1) := by
      unfold natLabel
      rw [if_neg (by omega)]
    rw [hlab]
    rfl
  · intro e he
    have : e ∈ g.edges := he
    exact edgeOk_mono (by simp) (hedges e this)
  · exact hpairs

theorem inv_makeStartStateAccepting (g : Graph) (h : Inv g) :
    Inv (makeStartStateAccepting g) := by
  obtain ⟨titles, hne, htit, hnodes, hedges, hpairs⟩ := h
  cases titles with
  | nil => exact absurd rfl hne
  | cons t ts =>
    refine ⟨some "accepting" :: ts, by simp, ?_, ?_, ?_, ?_⟩
    · intro t' ht'
      rcases List.mem_cons.mp ht' with h1 | h1
      · rw [h1]
        exact Or.inr rfl
      · exact htit t' (List.mem_cons_of_mem t h1)
    · show updateFirstNode (fun n => n.id == 1)
        (fun n => { n with title := some "accepting" }) g.nodes = _
      rw [hnodes]
      show updateFirstNode _ _ ({ id := 1, label := natLabel 1, title := t }
        :: canonNodesFrom 2 ts) = { id := 1, label := natLabel 1, title := some "accepting" }
        :: canonNodesFrom 2 ts
      unfold updateFirstNode
      simp
    · intro e he
      exact hedges e he
    · exact hpairs

theorem inv_addEdge (g : Graph) (n1 n2 : Nat) (lab : String) (h : Inv g)
    (h1 : n1 ∈ nodeIds g) (h2 : n2 ∈ nodeIds g) (hlab : lab ∈ alphaSyms) :
    Inv (addEdge g n1 n2 lab).graph := by
  obtain ⟨titles, hne, htit, hnodes, hedges, hpairs⟩ := h
  have hb1 : 1 ≤ n1 ∧ n1 ≤ titles.length := by
    have := (mem_nodeIds_canon titles 1 n1).mp (by
      show n1 ∈ (canonNodesFrom 1 titles).map Node.id
      rw [← hnodes]
      exact h1)
    omega
  have hb2 : 1 ≤ n2 ∧ n2 ≤ titles.length := by
    have := (mem_nodeIds_canon titles 1 n2).mp (by
      show n2 ∈ (canonNodesFrom 1 titles).map Node.id
      rw [← hnodes]
      exact h2)
    omega
  cases hfind : g.edges.find? (fun x => x.efrom == some n1 && x.eto == some n2) with
  | some e =>
    cases hinc : jsIncludes e.label lab with
    | true =>
      rw [addEdge_eq_of_includes hfind hinc]
      exact ⟨titles, hne, htit, hnodes, hedges, hpairs⟩
    | false =>
      rw [addEdge_eq_of_merge hfind hinc]
      refine ⟨titles, hne, htit, hnodes, ?_, ?_⟩
      · intro x hx
        rcases updateFirstEdge_mem_of_find? hfind hx with hx1 | hx1
        · exact hedges x hx1
        · obtain ⟨f, t, syms, hf, ht, hf1, hf2, ht1, ht2, ⟨hs1, hs2, hs3⟩, hdata⟩ :=
            hedges e (List.mem_of_find?_eq_some hfind)
          have hnotmem : lab ∉ syms := by
            intro hmem
            have : containsChars (joinSyms syms) lab.data = true :=
              (includes_join_iff syms lab hlab hs3).mpr hmem
            rw [← hdata] at this
            rw [show jsIncludes e.label lab = containsChars e.label.data lab.data from rfl]
              at hinc
            rw [this] at hinc
            exact Bool.true_eq_false.mp hinc
          refine ⟨f, t, syms ++ [lab], ?_, ?_, hf1, hf2, ht1, ht2, ?_, ?_⟩
          · rw [hx1]
            exact hf
          · rw [hx1]
            exact ht
          · refine ⟨by simp, ?_, ?_⟩
            · rw [List.nodup_append]
              exact ⟨hs2, List.nodup_singleton lab, by
                intro a ha hb
                simp at hb
                rw [hb] at ha
                exact hnotmem ha⟩
            · intro x hxm
              rcases List.mem_append.mp hxm with hh | hh
              · exact hs3 x hh
              · simp at hh
                rw [hh]
                exact hlab
          · rw [hx1]
            show (e.label ++ ", " ++ lab).data = _
            rw [String.data_append, String.data_append, hdata,
              joinSyms_append_single syms lab hs1]
            have hsep : (", " : String).data = [commaChar, ' '] := rfl
            rw [hsep]
            simp
      · rw [map_pairOf_updateFirstEdge (fun x => x.efrom == some n1 && x.eto == some n2)
          (fun x => { x with label := x.label ++ ", " ++ lab }) (fun e' => rfl)]
        exact hpairs
  | none =>
    cases hout : g.edges.find? (fun x => x.efrom == some n1 && jsIncludes x.label lab) with
    | some e2 =>
      rw [addEdge_eq_of_conflict hfind hout]
      exact ⟨titles, hne, htit, hnodes, hedges, hpairs⟩
    | none =>
      rw [addEdge_eq_of_push hfind hout]
      refine ⟨titles, hne, htit, hnodes, ?_, ?_⟩
      · intro x hx
        rcases List.mem_append.mp hx with hx1 | hx2
        · exact hedges x hx1
        · simp at hx2
          rw [hx2]
          refine ⟨n1, n2, [lab], rfl, rfl, hb1.1, hb1.2, hb2.1, hb2.2,
            ⟨by simp, List.nodup_singleton lab, ?_⟩, rfl⟩
          intro x hxm
          simp at hxm
          rw [hxm]
          exact hlab
      · rw [List.map_append, List.nodup_append]
        refine ⟨hpairs, by simp, ?_⟩
        intro a ha hb
        simp [pairOf] at hb
        obtain ⟨e', he', hpe⟩ := List.mem_map.mp ha
        have hfalse := List.find?_eq_none.mp hfind e' he'
        rw [hb] at hpe
        have hef : e'.efrom = some n1 := by
          have := congrArg Prod.fst hpe
          simpa [pairOf] using this
        have het : e'.eto = some n2 := by
          have := congrArg Prod.snd hpe
          simpa [pairOf] using this
        apply hfalse
        rw [hef, het]
        simp

theorem reachable_inv : ∀ {g : Graph}, Reachable g → Inv g := by
  intro g h
  induction h with
  | init => exact inv_default
  | addState g' b _ ih => exact inv_addNewState g' b ih
  | addTransition g' n1 n2 lab _ h1 h2 h3 ih => exact inv_addEdge g' n1 n2 lab ih h1 h2 h3
  | toggleAccepting g' _ ih => exact inv_makeStartStateAccepting g' ih
  | reset g' _ _ => exact inv_default

/-! ### Round trip: serializing one edge -/

theorem edgeTransitions_canon (g : Graph) (titles : List (Option String))
    (hnodes : g.nodes = canonNodesFrom 1 titles) (e : Edge)
    (hok : edgeOk titles.length e) :
    ∃ f t syms, e.efrom = some f ∧ e.eto = some t ∧ goodLabelSyms syms ∧
      e.label.data = joinSyms syms ∧ 1 ≤ f ∧ f ≤ titles.length ∧ 1 ≤ t ∧ t ≤ titles.length ∧
      edgeTransitions g e =
        some (syms.map (fun s => ⟨natLabel f, s, natLabel t⟩)) := by
  obtain ⟨f, t, syms, hf, ht, hf1, hf2, ht1, ht2, hgood, hdata⟩ := hok
  obtain ⟨ndf, hfindf, hidf, hlabf, _⟩ := find_canon f titles 1 (by omega) (by omega)
  obtain ⟨ndt, hfindt, hidt, hlabt, _⟩ := find_canon t titles 1 (by omega) (by omega)
  refine ⟨f, t, syms, hf, ht, hgood, hdata, hf1, hf2, ht1, ht2, ?_⟩
  unfold edgeTransitions
  rw [hf, ht, hnodes, hfindf, hfindt]
  show some ((splitCommaSpace e.label.data).map
    (fun lab => (⟨ndf.label, String.mk lab, ndt.label⟩ : TransitionEntry))) = _
  rw [hdata, splitCommaSpace_joinSyms syms hgood.2.2 hgood.1, List.map_map]
  have hfun : ((fun lab => (⟨ndf.label, String.mk lab, ndt.label⟩ : TransitionEntry)) ∘ String.data) =
      (fun s => (⟨natLabel f, s, natLabel t⟩ : TransitionEntry)) := by
    funext s
    show (⟨ndf.label, String.mk s.data, ndt.label⟩ : TransitionEntry) = _
    rw [hlabf, hlabt]
  rw [hfun]

/-! ### Round trip: rebuilding the edges -/

theorem addParsedEdge_eq_of_merge {names : List String} {es : List Edge}
    {t : TransitionEntry} {e : Edge}
    (h1 : es.find? (fun x => x.efrom == stateIdOf names t.tfrom && x.eto == stateIdOf names t.tto) = some e)
    (h2 : jsIncludes e.label t.input = false) :
    addParsedEdge names es t =
      updateFirstEdge (fun x => x.efrom == stateIdOf names t.tfrom && x.eto == stateIdOf names t.tto)
        (fun x => { x with label := x.label ++ ", " ++ t.input }) es := by
  unfold addParsedEdge
  rw [h1]
  simp [h2]

theorem addParsedEdge_eq_of_push {names : List String} {es : List Edge} {t : TransitionEntry}
    (h1 : es.find? (fun x => x.efrom == stateIdOf names t.tfrom && x.eto == stateIdOf names t.tto) = none) :
    addParsedEdge names es t =
      es ++ [Edge.mk (stateIdOf names t.tfrom) (stateIdOf names t.tto) t.input] := by
  unfold addParsedEdge
  rw [h1]

theorem updateFirstEdge_singleton_of_true {p : Edge → Bool} {f : Edge → Edge} {e : Edge}
    (h : p e = true) : updateFirstEdge p f [e] = [f e] := by
  unfold updateFirstEdge
  rw [h]
  simp

theorem addParsedEdge_merge_step (names : List String) (f t : Nat)
    (hfid : stateIdOf names (natLabel f) = some f)
    (htid : stateIdOf names (natLabel t) = some t)
    (acc : List Edge) (hacc : ∀ x ∈ acc, (x.efrom == some f && x.eto == some t) = false)
    (pre : List String) (hpre : pre ≠ []) (hprealpha : ∀ x ∈ pre, x ∈ alphaSyms)
    (s : String) (hsalpha : s ∈ alphaSyms) (hsnotmem : s ∉ pre) :
    addParsedEdge names (acc ++ [Edge.mk (some f) (some t) (String.mk (joinSyms pre))])
      (TransitionEntry.mk (natLabel f) s (natLabel t)) =
    acc ++ [Edge.mk (some f) (some t) (String.mk (joinSyms (pre ++ [s])))] := by
  have hp : ((Edge.mk (some f) (some t) (String.mk (joinSyms pre))).efrom == stateIdOf names (TransitionEntry.mk (natLabel f) s (natLabel t)).tfrom && (Edge.mk (some f) (some t) (String.mk (joinSyms pre))).eto == stateIdOf names (TransitionEntry.mk (natLabel f) s (natLabel t)).tto) = true := by
    show (some f == stateIdOf names (natLabel f) && some t == stateIdOf names (natLabel t)) = true
    rw [hfid, htid]
    simp
  have haccfail : ∀ x ∈ acc, (x.efrom == stateIdOf names (TransitionEntry.mk (natLabel f) s (natLabel t)).tfrom && x.eto == stateIdOf names (TransitionEntry.mk (natLabel f) s (natLabel t)).tto) = false := by
    intro x hx
    show (x.efrom == stateIdOf names (natLabel f) && x.eto == stateIdOf names (natLabel t)) = false
    rw [hfid, htid]
    exact hacc x hx
  have hfind : (acc ++ [Edge.mk (some f) (some t) (String.mk (joinSyms pre))]).find? (fun x => x.efrom == stateIdOf names (TransitionEntry.mk (natLabel f) s (natLabel t)).tfrom && x.eto == stateIdOf names (TransitionEntry.mk (natLabel f) s (natLabel t)).tto) = some (Edge.mk (some f) (some t) (String.mk (joinSyms pre))) := by
    rw [List.find?_append]
    have hnone : acc.find? (fun x => x.efrom == stateIdOf names (TransitionEntry.mk (natLabel f) s (natLabel t)).tfrom && x.eto == stateIdOf names (TransitionEntry.mk (natLabel f) s (natLabel t)).tto) = none := by
      rw [List.find?_eq_none]
      intro x hx
      rw [haccfail x hx]
      simp
    rw [hnone, List.find?_cons, hp]
    rfl
  have hninc : jsIncludes (Edge.mk (some f) (some t) (String.mk (joinSyms pre))).label (TransitionEntry.mk (natLabel f) s (natLabel t)).input = false := by
    show containsChars (joinSyms pre) s.data = false
    cases hcc : containsChars (joinSyms pre) s.data
    · rfl
    · exact absurd ((includes_join_iff pre s hsalpha hprealpha).mp hcc) hsnotmem
  rw [addParsedEdge_eq_of_merge hfind hninc]
  rw [updateFirstEdge_append acc _ haccfail]
  congr 1
  rw [updateFirstEdge_singleton_of_true hp]
  have hlabel : (String.mk (joinSyms pre) ++ ", " ++ s) = String.mk (joinSyms (pre ++ [s])) := by
    have hd : (String.mk (joinSyms pre) ++ ", " ++ s).data = joinSyms (pre ++ [s]) := by
      rw [String.data_append, String.data_append, joinSyms_append_single pre s hpre]
      have hsep : (", " : String).data = [commaChar, ' '] := rfl
      rw [hsep]
      simp
    exact congrArg String.mk hd
  show [Edge.mk (some f) (some t) (String.mk (joinSyms pre) ++ ", " ++ s)] = _
  rw [hlabel]

theorem group_fold (names : List String) (f t : Nat)
    (hfid : stateIdOf names (natLabel f) = some f)
    (htid : stateIdOf names (natLabel t) = some t) :
    ∀ (rest pre : List String) (acc : List Edge),
      pre ≠ [] → (∀ x ∈ pre ++ rest, x ∈ alphaSyms) → (pre ++ rest).Nodup →
      (∀ x ∈ acc, (x.efrom == some f && x.eto == some t) = false) →
      List.foldl (addParsedEdge names)
        (acc ++ [Edge.mk (some f) (some t) (String.mk (joinSyms pre))])
        (rest.map (fun s => TransitionEntry.mk (natLabel f) s (natLabel t))) =
      acc ++ [Edge.mk (some f) (some t) (String.mk (joinSyms (pre ++ rest)))] := by
  intro rest
  induction rest with
  | nil =>
    intro pre acc _ _ _ _
    simp
  | cons s rtail ih =>
    intro pre acc hpre hall hnodup hacc
    have hsalpha : s ∈ alphaSyms := hall s (by simp)
    have hprealpha : ∀ x ∈ pre, x ∈ alphaSyms := fun x hx => hall x (by simp [hx])
    have hsnotmem : s ∉ pre := by
      intro hmem
      rw [List.nodup_append] at hnodup
      exact hnodup.2.2 hmem (by simp)
    rw [List.map_cons, List.foldl_cons,
      addParsedEdge_merge_step names f t hfid htid acc hacc pre hpre hprealpha s hsalpha hsnotmem]
    have hres := ih (pre ++ [s]) acc (by simp)
      (by simpa [List.append_assoc] using hall)
      (by simpa [List.append_assoc] using hnodup) hacc
    simpa [List.append_assoc] using hres

theorem rebuild_edges (g : Graph) (titles : List (Option String))
    (hnodes : g.nodes = canonNodesFrom 1 titles) :
    ∀ (es acc : List Edge),
      (∀ e ∈ es, edgeOk titles.length e) →
      ((acc ++ es).map pairOf).Nodup →
      ∃ ts, collectTransitions g es = some ts ∧
        ts.foldl (addParsedEdge ((canonNodesFrom 1 titles).map Node.label)) acc = acc ++ es := by
  intro es
  induction es with
  | nil =>
    intro acc _ _
    exact ⟨[], rfl, by simp⟩
  | cons e rest ih =>
    intro acc hok hnodup
    obtain ⟨f, t, syms, hf, ht, hgood, hdata, hf1, hf2, ht1, ht2, hgrp⟩ :=
      edgeTransitions_canon g titles hnodes e (hok e (List.mem_cons_self e rest))
    have hpairse : pairOf e = (some f, some t) := by
      unfold pairOf
      rw [hf, ht]
    obtain ⟨ts', hts', hfold'⟩ := ih (acc ++ [e])
      (fun x hx => hok x (List.mem_cons_of_mem e hx))
      (by simpa [List.append_assoc] using hnodup)
    refine ⟨syms.map (fun s => TransitionEntry.mk (natLabel f) s (natLabel t)) ++ ts', ?_, ?_⟩
    · show (do
        let grp ← edgeTransitions g e
        let rest2 ← collectTransitions g rest
        pure (grp ++ rest2)) = _
      rw [hgrp, hts']
      rfl
    · have hfid := stateIdOf_natLabel titles f hf1 hf2
      have htid := stateIdOf_natLabel titles t ht1 ht2
      have haccfail : ∀ x ∈ acc, (x.efrom == some f && x.eto == some t) = false := by
        intro x hx
        cases hb : (x.efrom == some f && x.eto == some t)
        · rfl
        · exfalso
          rw [Bool.and_eq_true] at hb
          have hxy : pairOf x = (some f, some t) := by
            unfold pairOf
            rw [eq_of_beq hb.1, eq_of_beq hb.2]
          rw [List.map_append, List.nodup_append] at hnodup
          exact hnodup.2.2 (List.mem_map.mpr ⟨x, hx, hxy⟩)
            (List.mem_map.mpr ⟨e, List.mem_cons_self e rest, hpairse⟩)
      obtain ⟨s1, stail, rfl⟩ : ∃ s1 stail, syms = s1 :: stail := by
        cases syms with
        | nil => exact absurd rfl hgood.1
        | cons a b => exact ⟨a, b, rfl⟩
      rw [List.foldl_append, List.map_cons, List.foldl_cons]
      have hfindnone : acc.find? (fun x => x.efrom == stateIdOf ((canonNodesFrom 1 titles).map Node.label) (TransitionEntry.mk (natLabel f) s1 (natLabel t)).tfrom && x.eto == stateIdOf ((canonNodesFrom 1 titles).map Node.label) (TransitionEntry.mk (natLabel f) s1 (natLabel t)).tto) = none := by
        rw [List.find?_eq_none]
        intro x hx
        show ¬ (x.efrom == stateIdOf ((canonNodesFrom 1 titles).map Node.label) (natLabel f) && x.eto == stateIdOf ((canonNodesFrom 1 titles).map Node.label) (natLabel t)) = true
        rw [hfid, htid, haccfail x hx]
        simp
      rw [addParsedEdge_eq_of_push hfindnone]
      have hpe : Edge.mk (stateIdOf ((canonNodesFrom 1 titles).map Node.label) (TransitionEntry.mk (natLabel f) s1 (natLabel t)).tfrom) (stateIdOf ((canonNodesFrom 1 titles).map Node.label) (TransitionEntry.mk (natLabel f) s1 (natLabel t)).tto) (TransitionEntry.mk (natLabel f) s1 (natLabel t)).input = Edge.mk (some f) (some t) (String.mk (joinSyms [s1])) := by
        show Edge.mk (stateIdOf ((canonNodesFrom 1 titles).map Node.label) (natLabel f)) (stateIdOf ((canonNodesFrom 1 titles).map Node.label) (natLabel t)) s1 = _
        rw [hfid, htid]
        rfl
      rw [hpe]
      have hgf := group_fold ((canonNodesFrom 1 titles).map Node.label) f t hfid htid stail [s1] acc (by simp)
        (by simpa using hgood.2.2) (by simpa using hgood.2.1) haccfail
      rw [hgf]
      have hee : Edge.mk (some f) (some t) (String.mk (joinSyms ([s1] ++ stail))) = e := by
        have hl : String.mk (joinSyms ([s1] ++ stail)) = e.label := by
          show String.mk (joinSyms (s1 :: stail)) = e.label
          rw [← hdata]
        rw [hl, ← hf, ← ht]
      rw [hee]
      simpa [List.append_assoc] using hfold'

/-! ### Round trip: rebuilding the nodes -/

theorem contains_mem {l : List String} {a : String} : l.contains a = true ↔ a ∈ l :=
  List.elem_iff

theorem accNames_contains (titles : List (Option String)) (htit : ∀ t ∈ titles, goodTitle t)
    (nd : Node) (hnd : nd ∈ canonNodesFrom 1 titles) :
    (((canonNodesFrom 1 titles).filter (fun n => n.title == some "accepting")).map Node.label).contains nd.label =
      (nd.title == some "accepting") := by
  cases hb : ((nd.title == some "accepting") : Bool)
  · cases hc : (((canonNodesFrom 1 titles).filter (fun n => n.title == some "accepting")).map Node.label).contains nd.label
    · rfl
    · exfalso
      obtain ⟨nd', hnd'f, hlabeq⟩ := List.mem_map.mp (contains_mem.mp hc)
      have hnd'c : nd' ∈ canonNodesFrom 1 titles := (List.mem_filter.mp hnd'f).1
      have hnd't : (nd'.title == some "accepting") = true := (List.mem_filter.mp hnd'f).2
      have hlab1 := (mem_canonNodesFrom_facts titles 1 hnd).2.2.1
      have hlab2 := (mem_canonNodesFrom_facts titles 1 hnd'c).2.2.1
      have hideq : nd'.id = nd.id := natLabel_injective (by rw [← hlab1, ← hlab2, hlabeq])
      have heq : nd' = nd := canonNodesFrom_id_unique titles 1 hnd'c hnd hideq
      rw [heq, hb] at hnd't
      exact Bool.false_ne_true hnd't
  · exact contains_mem.mpr
      (List.mem_map.mpr ⟨nd, List.mem_filter.mpr ⟨hnd, hb⟩, rfl⟩)

theorem buildNodes_canon_aux (accNames : List String) :
    ∀ (ts : List (Option String)) (i : Nat),
      (∀ nd ∈ canonNodesFrom i ts, accNames.contains nd.label = (nd.title == some "accepting")) →
      (∀ nd ∈ canonNodesFrom i ts, goodTitle nd.title) →
      buildNodesFrom accNames i ((canonNodesFrom i ts).map Node.label) = canonNodesFrom i ts := by
  intro ts
  induction ts with
  | nil => intro i _ _; rfl
  | cons t ts ih =>
    intro i hcont hgood
    have hhead : accNames.contains (natLabel i) = (t == some "accepting") :=
      hcont (Node.mk i (natLabel i) t) (List.mem_cons_self _ _)
    have hgt : goodTitle t :=
      hgood (Node.mk i (natLabel i) t) (List.mem_cons_self _ _)
    show Node.mk i (natLabel i) (if accNames.contains (natLabel i) then some "accepting" else none) :: buildNodesFrom accNames (i + 1) ((canonNodesFrom (i + 1) ts).map Node.label) = Node.mk i (natLabel i) t :: canonNodesFrom (i + 1) ts
    congr 1
    · rcases hgt with hno | hacc
      · rw [hno] at hhead ⊢
        rw [show ((none : Option String) == some "accepting") = false from rfl] at hhead
        rw [hhead]
        rfl
      · rw [hacc] at hhead ⊢
        rw [show ((some "accepting" : Option String) == some "accepting") = true from beq_self_eq_true _] at hhead
        rw [hhead]
        rfl
    · exact ih (i + 1)
        (fun nd hnd => hcont nd (List.mem_cons_of_mem _ hnd))
        (fun nd hnd => hgood nd (List.mem_cons_of_mem _ hnd))

/-! ### Round trip: assembly, and C5 -/

theorem inv_roundTrip (g : Graph) (h : Inv g) :
    ∃ sd, updateDfaSpecFromGraph g = some sd ∧
      buildGraphFromSpec sd.states sd.acceptingStates sd.transitions = g := by
  obtain ⟨titles, hne, htit, hnodes, hedges, hpairs⟩ := h
  obtain ⟨ts, hts, hfold⟩ := rebuild_edges g titles hnodes g.edges [] hedges (by simpa using hpairs)
  refine ⟨DfaSpecData.mk ["A", "C", "0"] (g.nodes.map Node.label) "Start" ((g.nodes.filter (fun n => n.title == some "accepting")).map Node.label) ts, ?_, ?_⟩
  · unfold updateDfaSpecFromGraph
    rw [hts]
    rfl
  · show Graph.mk (buildNodes (g.nodes.map Node.label) ((g.nodes.filter (fun n => n.title == some "accepting")).map Node.label)) (buildEdges (g.nodes.map Node.label) ts) = g
    have hn : buildNodes (g.nodes.map Node.label) ((g.nodes.filter (fun n => n.title == some "accepting")).map Node.label) = g.nodes := by
      rw [hnodes]
      exact buildNodes_canon_aux _ titles 1
        (fun nd hnd => accNames_contains titles htit nd hnd)
        (fun nd hnd => htit nd.title (mem_canonNodesFrom_facts titles 1 hnd).2.2.2)
    have he : buildEdges (g.nodes.map Node.label) ts = g.edges := by
      unfold buildEdges
      rw [hnodes]
      simpa using hfold
    rw [hn, he]

/-- C5 (confirmed): for every model built from the initial model by valid
mutation operations, serializing (`updateDfaSpecFromGraph`) succeeds and
rebuilding a model from the serialized states, accepting states and
transitions (the parser's graph-building phase) returns the model
exactly — in particular with the same state count, the same accepting
set, and the same transition function. -/
theorem c5 (g : Graph) (h : Reachable g) :
    ∃ sd, updateDfaSpecFromGraph g = some sd ∧
      buildGraphFromSpec sd.states sd.acceptingStates sd.transitions = g :=
  inv_roundTrip g (reachable_inv h)

/-- Witness for C5 at a concrete mutation-built model. -/
theorem c5_witness :
    Reachable c5graph ∧
    ∃ sd, updateDfaSpecFromGraph c5graph = some sd ∧
      buildGraphFromSpec sd.states sd.acceptingStates sd.transitions = c5graph := by
  have hr : Reachable c5graph :=
    Reachable.addTransition _ 1 2 "A"
      (Reachable.addState _ false (Reachable.addState _ true Reachable.init))
      (by decide) (by decide) (by decide)
  exact ⟨hr, c5 c5graph hr⟩

end DfaVis
